import Mathlib

/-!
Upload sets, limit checks and deduplication: a shallow embedding of `uploadfile.go`.

* Go maps (`map[string][]*FileHeader`, `map[string]bool`) are association lists /
  key lists; the order of the list is the order in which a `range` loop visits the
  map.  Go leaves that order unspecified, so statements about a set built by `New`
  are made for every `File` that is the same set read in any order (`File.SameSet`).
* `int64` values are mathematical integers; the only `int64` arithmetic of the
  package, the `+=` of `File.Size`, wraps modulo `2^64` (`wrap64`).  The `int` of
  `File.Filenum` adds lengths of slices held in memory and is an integer.
* `error` results are `Option Error` (`none` is `nil`); the `error` of the write path is
  its message, `Option String`.
* The write path runs on an explicit filesystem state `FS` and clock reading `Time`;
  a run that ends in a Go panic has no result (`none`).  The library functions it calls
  (`strings.NewReplacer`, `crypto/md5`, `fmt`, `filepath.Split`, `os.MkdirAll`, `os.Stat`,
  `ioutil.WriteFile`) are modelled here; paths are compared as written.
-/

namespace Uploadfile

/-! ## Data model -/

/-- The `textproto.MIMEHeader` of a part: `map[string][]string`. -/
abbrev MIMEHeader := List (String × List String)

/-- What `Open` followed by `ioutil.ReadAll` yields for an uploaded file: its bytes, or
the message of the error of either call. -/
inductive Content where
  | data (bytes : List Nat)
  | failure (message : String)
deriving DecidableEq, Repr

/-- The fields of `multipart.FileHeader` that the package reads
(`FileHeader` of the package embeds a pointer to it); `Body` is what `Open` gives. -/
structure FileHeader where
  Filename : String
  Header : MIMEHeader
  Size : Int
  Body : Content := Content.data []
deriving DecidableEq, Repr

/-- The `multipart.Form` of a request: `File` is `map[string][]*FileHeader`, possibly nil. -/
structure Form where
  File : Option (List (String × List FileHeader))
deriving DecidableEq, Repr

/-- The part of `http.Request` that `New` reads: `MultipartForm`, nil before parsing. -/
structure Request where
  MultipartForm : Option Form
deriving DecidableEq, Repr

/-- The configuration `UploadFiles`. -/
structure UploadFiles where
  SaveFile : String
  MaxSize : Int
  Perm : Nat
  Overwrite : Bool
  Unique : Bool
  Filenum : Int
deriving DecidableEq, Repr

/-- The upload set `File`.  `unique` is the key list of the `map[string]bool`
(a nil map is the empty list). -/
structure File where
  headers : List (String × List FileHeader)
  perm : Nat
  savefile : String
  overwrite : Bool
  maxsize : Int
  unique : List String
  filenum : Int
deriving DecidableEq, Repr

/-- The error kind constant `NumLimitExceeded`. -/
def NumLimitExceeded : Int := 1
/-- The error kind constant `SumLimitExceeded`. -/
def SumLimitExceeded : Int := 2
/-- The error kind constant `LimitExceeded`. -/
def LimitExceeded : Int := 3
/-- The error kind constant `UniqueFile`. -/
def UniqueFile : Int := 4

/-- The struct `Error`; a field that a literal leaves out has Go's zero value. -/
structure Error where
  Maxsize : Int := 0
  Filename : String := ""
  Filesize : Int := 0
  Attrname : String := ""
  Header : MIMEHeader := []
  ErrorType : Int := 0
deriving DecidableEq, Repr

/-! ## Go primitives -/

/-- The value of an `int64` after an arithmetic operation whose exact result is `x`. -/
def wrap64 (x : Int) : Int := (x + 2 ^ 63) % 2 ^ 64 - 2 ^ 63

/-- The assignment `m[k] = v` on a map held as an association list. -/
def mapSet {V : Type} (m : List (String × V)) (k : String) (v : V) : List (String × V) :=
  if k ∈ m.map Prod.fst then m.map (fun p => if p.1 = k then (k, v) else p)
  else m ++ [(k, v)]

/-- The assignment `s[k] = true` on a `map[string]bool` held as its key list. -/
def setAdd (s : List String) (k : String) : List String :=
  if k ∈ s then s else s ++ [k]

/-! ## `New` -/

/-- The inner loop of `New` over the descriptors of one field.  The state is
`uniq`, `file.unique` and the slice `fileheaders`. -/
def New.scanField (isUnique : Bool) :
    List FileHeader → List String → List String → List FileHeader →
      List String × List String × List FileHeader
  | [], uniq, unique, fileheaders => (uniq, unique, fileheaders)
  | header :: rest, uniq, unique, fileheaders =>
    if isUnique then
      if header.Filename ∈ uniq then
        New.scanField isUnique rest uniq (setAdd unique header.Filename) fileheaders
      else
        New.scanField isUnique rest (setAdd uniq header.Filename) unique
          (fileheaders ++ [header])
    else
      New.scanField isUnique rest uniq unique (fileheaders ++ [header])

/-- The outer loop of `New` over the fields of the form. -/
def New.scanForm (isUnique : Bool) :
    List (String × List FileHeader) → List String → File → File
  | [], _, file => file
  | (name, headers) :: rest, uniq, file =>
    let s := New.scanField isUnique headers uniq file.unique []
    New.scanForm isUnique rest s.1
      { file with unique := s.2.1, headers := mapSet file.headers name s.2.2 }

/-- The function `New`. -/
def New (r : Request) (fileinfo : UploadFiles) : File :=
  let filenum : Int := if fileinfo.Filenum > 0 then fileinfo.Filenum else 0
  let file : File :=
    { headers := [], perm := fileinfo.Perm, savefile := fileinfo.SaveFile,
      overwrite := fileinfo.Overwrite, maxsize := fileinfo.MaxSize, unique := [],
      filenum := filenum }
  match r.MultipartForm with
  | none => file
  | some form =>
    match form.File with
    | none => file
    | some files => New.scanForm fileinfo.Unique files [] file

/-! ## Accessors and checks -/

/-- The method `File.Filenum`: the loop adds `len(headers)` for every field. -/
def File.Filenum (file : File) : Int :=
  file.headers.foldl (fun filenum p => filenum + (p.2.length : Int)) 0

/-- The inner loop of `File.Size`: `result += header.Size` for every entry of a field. -/
def File.Size.addField (result : Int) (headers : List FileHeader) : Int :=
  headers.foldl (fun acc header => wrap64 (acc + header.Size)) result

/-- The method `File.Size`. -/
def File.Size (file : File) : Int :=
  file.headers.foldl (fun result p => File.Size.addField result p.2) 0

/-- The method `File.numExceeded`. -/
def File.numExceeded (file : File) : Option Error :=
  let num := file.Filenum
  if file.filenum ≠ 0 ∧ num > file.filenum then
    some { Maxsize := file.filenum, Filesize := num, ErrorType := NumLimitExceeded }
  else none

/-- The loop `for name, _ := range file.unique { return ... }` shared by both checks:
the first key visited, if any, is reported. -/
def File.uniqueError (file : File) : Option Error :=
  match file.unique with
  | [] => none
  | name :: _ => some { Filename := name, ErrorType := UniqueFile }

/-- The method `File.SumLimitExceeded`. -/
def File.SumLimitExceeded (file : File) : Option Error :=
  if file.Size > file.maxsize then
    some { Maxsize := file.maxsize, Filesize := file.Size,
           ErrorType := Uploadfile.SumLimitExceeded }
  else
    match file.uniqueError with
    | some e => some e
    | none => file.numExceeded

/-- The inner loop of `File.LimitExceeded` over the entries of the field `name`:
the first entry over the limit ends the method with its error. -/
def File.LimitExceeded.scanField (maxsize : Int) (name : String) :
    List FileHeader → Option Error
  | [] => none
  | header :: rest =>
    if maxsize ≠ 0 ∧ maxsize < header.Size then
      some { Maxsize := maxsize, Filename := header.Filename, Filesize := header.Size,
             Attrname := name, Header := header.Header,
             ErrorType := Uploadfile.LimitExceeded }
    else File.LimitExceeded.scanField maxsize name rest

/-- The outer loop of `File.LimitExceeded` over the fields. -/
def File.LimitExceeded.scan (maxsize : Int) :
    List (String × List FileHeader) → Option Error
  | [] => none
  | (name, headers) :: rest =>
    match File.LimitExceeded.scanField maxsize name headers with
    | some e => some e
    | none => File.LimitExceeded.scan maxsize rest

/-- The method `File.LimitExceeded`. -/
def File.LimitExceeded (file : File) : Option Error :=
  match File.LimitExceeded.scan file.maxsize file.headers with
  | some e => some e
  | none =>
    match file.uniqueError with
    | some e => some e
    | none => file.numExceeded

/-! ## Vocabulary of the statements -/

/-- The entries of a set in iteration order (fields, then entries within a field),
each with the name of its field. -/
def File.entries (file : File) : List (String × FileHeader) :=
  file.headers.flatMap (fun p => p.2.map (fun h => (p.1, h)))

/-- The sum of the declared sizes of all entries, as an integer (no wrap-around). -/
def File.total (file : File) : Int :=
  (file.entries.map (fun e => e.2.Size)).sum

/-- The number of entries of a set. -/
def File.count (file : File) : Nat := file.entries.length

/-- The field-to-descriptors map of a request (empty when the form is not parsed). -/
def Request.files (r : Request) : List (String × List FileHeader) :=
  match r.MultipartForm with
  | none => []
  | some form => form.File.getD []

/-- The filenames of all descriptors of a request, in iteration order. -/
def Request.filenames (r : Request) : List String :=
  (r.files.flatMap Prod.snd).map FileHeader.Filename

/-- The set `f` is the set `g` read in some iteration order of its two maps. -/
def File.SameSet (f g : File) : Prop :=
  f.headers.Perm g.headers ∧ f.unique.Perm g.unique ∧ f.perm = g.perm ∧
    f.savefile = g.savefile ∧ f.overwrite = g.overwrite ∧ f.maxsize = g.maxsize ∧
    f.filenum = g.filenum

/-- A request whose form holds the given fields. -/
def Request.ofFiles (files : List (String × List FileHeader)) : Request :=
  { MultipartForm := some { File := some files } }

/-- A descriptor with the given filename and declared size and no MIME header. -/
def mkHeader (filename : String) (size : Int) : FileHeader :=
  { Filename := filename, Header := [], Size := size }

/-- A configuration with only the limits and the uniqueness switch set. -/
def mkConfig (maxsize filenum : Int) (isUnique : Bool) : UploadFiles :=
  { SaveFile := "", MaxSize := maxsize, Perm := 420, Overwrite := true,
    Unique := isUnique, Filenum := filenum }

/-! ## Fixtures -/

/-- One field `file` with the 5-byte file of the test data. -/
def oneFile : Request :=
  Request.ofFiles [("file", [mkHeader "data1.txt" 5])]

/-- Three fields with the 5-, 10- and 15-byte files of the test data. -/
def threeFiles : Request :=
  Request.ofFiles [("file1", [mkHeader "data1.txt" 5]), ("file2", [mkHeader "data2.txt" 10]),
    ("file3", [mkHeader "data3.txt" 15])]

/-- Two fields whose files each declare `2^62` bytes. -/
def hugeFiles : Request :=
  Request.ofFiles [("a", [mkHeader "a.bin" 4611686018427387904]),
    ("b", [mkHeader "b.bin" 4611686018427387904])]

/-- Two fields whose files each declare `2^62` bytes, and a third field that uploads
the filename of the first again. -/
def hugeDuplicateFiles : Request :=
  Request.ofFiles [("a", [mkHeader "a.bin" 4611686018427387904]),
    ("b", [mkHeader "b.bin" 4611686018427387904]), ("c", [mkHeader "a.bin" 1])]

/-- Three fields of the test data, the first two uploading the same file `data1.txt`. -/
def duplicateFiles : Request :=
  Request.ofFiles [("file1", [mkHeader "data1.txt" 5]), ("file2", [mkHeader "data1.txt" 5]),
    ("file3", [mkHeader "data3.txt" 15])]

/-! ## The error of the per-file check -/

/-- The error that `LimitExceeded` builds for the entry `p` of field `p.1`. -/
def limitErrorOf (maxsize : Int) (p : String × FileHeader) : Error :=
  { Maxsize := maxsize, Filename := p.2.Filename, Filesize := p.2.Size, Attrname := p.1,
    Header := p.2.Header, ErrorType := LimitExceeded }

/-! ## Deduplication: what the specification asks of `New` -/

/-- The filenames carried by a sequence of descriptors. -/
def filenamesOf (headers : List FileHeader) : List String :=
  headers.map FileHeader.Filename

/-- The descriptors of one field that are first occurrences: the descriptor at position
`j` is kept when its filename is neither among `seen`, the filenames of the fields
before, nor the filename of a descriptor before position `j` of the field. -/
def keepFirst (seen : List String) (headers : List FileHeader) : List FileHeader :=
  (headers.enum.filter (fun jh =>
    decide (jh.2.Filename ∉ seen ++ filenamesOf (headers.take jh.1)))).map Prod.snd

/-- The mapping in which, of every filename, exactly the first occurrence in iteration
order (fields, then descriptors within a field) is kept: field `i` keeps its first
occurrences with respect to the filenames of the fields before `i`. -/
def firstOccurrences (files : List (String × List FileHeader)) :
    List (String × List FileHeader) :=
  files.enum.map (fun ip =>
    (ip.2.1, keepFirst (filenamesOf ((files.take ip.1).flatMap Prod.snd)) ip.2.2))

/-- The mapping `firstOccurrences` of a request whose fields come after descriptors
with the filenames `seen`, field by field. -/
def keptFrom : List String → List (String × List FileHeader) →
    List (String × List FileHeader)
  | _, [] => []
  | seen, (name, headers) :: rest =>
    (name, keepFirst seen headers) :: keptFrom (seen ++ filenamesOf headers) rest

/-! ## Accessors of the mapping -/

/-- The method `File.Files`. -/
def File.Files (file : File) : List (String × List FileHeader) :=
  file.headers

/-- The method `File.Headers`: `file.headers[name]`, nil for a name that is no key. -/
def File.Headers (file : File) (name : String) : List FileHeader :=
  (file.headers.lookup name).getD []

/-- The method `File.Get`. -/
def File.Get (file : File) (name : String) : Option FileHeader :=
  match file.Headers name with
  | [] => none
  | header :: _ => some header

/-- A request that was not parsed: `MultipartForm` is nil. -/
def unparsed : Request := { MultipartForm := none }

/-- A form with the single field `empty`, which carries no descriptor. -/
def emptyField : Request := Request.ofFiles [("empty", [])]

/-! ## Clock and formatting (`time`, `fmt`) -/

/-- The reading of `time.Now()`: the values of `Year`, `Month`, `Day`, `Hour`, `Minute`
and `Second`. -/
structure Time where
  Year : Int
  Month : Nat
  Day : Nat
  Hour : Nat
  Minute : Nat
  Second : Nat
deriving DecidableEq, Repr

/-- The verb `%02d` of `fmt.Sprintf` on a value that is not negative: the decimal
digits, with a leading `0` when there is a single one. -/
def pad2 (n : Nat) : List Char :=
  let s := (toString n).data
  if s.length < 2 then '0' :: s else s

/-- The slice expression `year[2:]`: a panic (`none`) when the string is shorter than 2. -/
def sliceFrom2 (year : List Char) : Option (List Char) :=
  if year.length < 2 then none else some (year.drop 2)

/-! ## `strings.NewReplacer` -/

/-- The lookup of the generic replacer: the first pair, in argument order, whose old
string starts the input. -/
def Replacer.lookup (pairs : List (List Char × List Char)) (s : List Char) :
    Option (List Char × List Char) :=
  pairs.find? (fun p => p.1.isPrefixOf s)

/-- The method `Replace` of the generic replacer, for old strings that are not empty:
one pass from left to right; at a position where an old string starts, its new string is
written and the input continues behind the old string (`skip` counts the characters of
it still to pass over), elsewhere the character is copied. -/
def Replacer.Replace (pairs : List (List Char × List Char)) : Nat → List Char → List Char
  | _, [] => []
  | skip + 1, _ :: rest => Replacer.Replace pairs skip rest
  | 0, c :: rest =>
    match Replacer.lookup pairs (c :: rest) with
    | some p => p.2 ++ Replacer.Replace pairs (p.1.length - 1) rest
    | none => c :: Replacer.Replace pairs 0 rest
/-! ## The digest of `%g`: `crypto/md5` -/

/-- The bytes of a Go string (UTF-8). -/
def bytesOf (s : String) : List Nat :=
  s.data.flatMap (fun c => (String.utf8EncodeChar c).map UInt8.toNat)

/-- The per-round left rotations of MD5 (RFC 1321). -/
def md5.shifts : List Nat :=
  [7, 12, 17, 22, 7, 12, 17, 22, 7, 12, 17, 22, 7, 12, 17, 22,
   5, 9, 14, 20, 5, 9, 14, 20, 5, 9, 14, 20, 5, 9, 14, 20,
   4, 11, 16, 23, 4, 11, 16, 23, 4, 11, 16, 23, 4, 11, 16, 23,
   6, 10, 15, 21, 6, 10, 15, 21, 6, 10, 15, 21, 6, 10, 15, 21]

/-- The per-round constants of MD5: `floor (2^32 * |sin (i + 1)|)`. -/
def md5.sines : List Nat :=
  [3614090360, 3905402710, 606105819, 3250441966, 4118548399, 1200080426, 2821735955,
   4249261313, 1770035416, 2336552879, 4294925233, 2304563134, 1804603682, 4254626195,
   2792965006, 1236535329, 4129170786, 3225465664, 643717713, 3921069994, 3593408605,
   38016083, 3634488961, 3889429448, 568446438, 3275163606, 4107603335, 1163531501,
   2850285829, 4243563512, 1735328473, 2368359562, 4294588738, 2272392833, 1839030562,
   4259657740, 2763975236, 1272893353, 4139469664, 3200236656, 681279174, 3936430074,
   3572445317, 76029189, 3654602809, 3873151461, 530742520, 3299628645, 4096336452,
   1126891415, 2878612391, 4237533241, 1700485571, 2399980690, 4293915773, 2240044497,
   1873313359, 4264355552, 2734768916, 1309151649, 4149444226, 3174756917, 718787259,
   3951481745]

/-- The rotation of a 32-bit word to the left by `s` bits. -/
def md5.rotl (x s : Nat) : Nat :=
  ((x <<< s) ||| (x >>> (32 - s))) % 2 ^ 32

/-- The complement of a 32-bit word. -/
def md5.not32 (x : Nat) : Nat := 4294967295 - x % 2 ^ 32

/-- The little-endian words of a byte sequence, four bytes each. -/
def md5.words : List Nat → List Nat
  | b0 :: b1 :: b2 :: b3 :: rest =>
    (b0 + 256 * b1 + 65536 * b2 + 16777216 * b3) :: md5.words rest
  | _ => []

/-- The padded message: the byte `0x80`, zero bytes up to 56 modulo 64, and the bit
length as 8 little-endian bytes. -/
def md5.pad (msg : List Nat) : List Nat :=
  let zeros := (119 - msg.length % 64) % 64
  let bits := 8 * msg.length
  msg ++ [128] ++ List.replicate zeros 0
    ++ (List.range 8).map (fun i => bits / 256 ^ i % 256)

/-- One of the 64 operations of MD5 on the state `(a, b, c, d)` with the block `m`. -/
def md5.step (m : List Nat) (st : Nat × Nat × Nat × Nat) (i : Nat) : Nat × Nat × Nat × Nat :=
  let (a, b, c, d) := st
  let f :=
    if i < 16 then (b &&& c) ||| (md5.not32 b &&& d)
    else if i < 32 then (d &&& b) ||| (md5.not32 d &&& c)
    else if i < 48 then b ^^^ c ^^^ d
    else c ^^^ (b ||| md5.not32 d)
  let g :=
    if i < 16 then i
    else if i < 32 then (5 * i + 1) % 16
    else if i < 48 then (3 * i + 5) % 16
    else (7 * i) % 16
  let sum := (f + a + md5.sines.getD i 0 + m.getD g 0) % 2 ^ 32
  (d, (b + md5.rotl sum (md5.shifts.getD i 0)) % 2 ^ 32, b, c)

/-- The update of the chaining value by one 64-byte block. -/
def md5.block (h : Nat × Nat × Nat × Nat) (chunk : List Nat) : Nat × Nat × Nat × Nat :=
  let r := (List.range 64).foldl (md5.step (md5.words chunk)) h
  ((h.1 + r.1) % 2 ^ 32, (h.2.1 + r.2.1) % 2 ^ 32, (h.2.2.1 + r.2.2.1) % 2 ^ 32,
    (h.2.2.2 + r.2.2.2) % 2 ^ 32)

/-- The blocks of a padded message; `n` is the number of blocks. -/
def md5.blocks : Nat → List Nat → List (List Nat)
  | 0, _ => []
  | n + 1, msg => msg.take 64 :: md5.blocks n (msg.drop 64)

/-- The four little-endian bytes of a 32-bit word. -/
def md5.wordBytes (w : Nat) : List Nat :=
  [w % 256, w / 256 % 256, w / 65536 % 256, w / 16777216 % 256]

/-- The MD5 digest (16 bytes) of a byte sequence: `hash.Sum(nil)` after the bytes were
written to `md5.New()`. -/
def md5 (msg : List Nat) : List Nat :=
  let padded := md5.pad msg
  let h := (md5.blocks (padded.length / 64) padded).foldl md5.block
    (1732584193, 4023233417, 2562383102, 271733878)
  md5.wordBytes h.1 ++ md5.wordBytes h.2.1 ++ md5.wordBytes h.2.2.1 ++ md5.wordBytes h.2.2.2

/-- The lowercase hexadecimal digit of a value below 16. -/
def hexDigit (n : Nat) : Char :=
  "0123456789abcdef".data.getD n '0'

/-- The verb `%x` of `fmt.Sprintf` on a byte slice: two lowercase digits per byte. -/
def hexOf (bytes : List Nat) : List Char :=
  bytes.flatMap (fun b => [hexDigit (b / 16 % 16), hexDigit (b % 16)])

/-! ## Filesystem (`path/filepath`, `os`, `io/ioutil`) -/

/-- The function `filepath.Split`: the path is cut right behind its last `/`. -/
def splitPath (path : List Char) : List Char × List Char :=
  let file := (path.reverse.takeWhile (fun c => c != '/')).reverse
  (path.take (path.length - file.length), file)

/-- The directory part of a path, as `filepath.Split` returns it. -/
def dirOf (path : String) : String := String.mk (splitPath path.data).1

/-- The file part of a path, as `filepath.Split` returns it. -/
def baseOf (path : String) : String := String.mk (splitPath path.data).2

/-- The prefixes of a path that end in `/`, shortest first: the directories on the way. -/
def dirPrefixes (path : String) : List String :=
  (path.data.inits.filter (fun p => p.getLast? = some '/')).map String.mk

/-- The state of the filesystem: the directories (each written with its closing `/`) and
the regular files with their bytes and permission bits. -/
structure FS where
  dirs : List String
  files : List (String × List Nat × Nat)
deriving DecidableEq, Repr

/-- Whether a regular file is stored at the path. -/
def FS.isFile (fs : FS) (path : String) : Bool :=
  (fs.files.lookup path).isSome

/-- The test `os.Stat(path)` returns no error: the path is not empty, its directory part
is a directory, and its file part names a regular file or a directory there. -/
def FS.Stat (fs : FS) (path : String) : Bool :=
  decide (path ≠ "") && (decide (dirOf path = "") || decide (dirOf path ∈ fs.dirs)) &&
    (decide (baseOf path = "") || fs.isFile path || decide (path ++ "/" ∈ fs.dirs))

/-- One directory of `os.MkdirAll`: nothing to do when it exists, an error (the flag
turns false and the walk ends) when a regular file has its name, else it is created. -/
def FS.mkdirStep (state : FS × Bool) (dir : String) : FS × Bool :=
  if state.2 = false then state
  else if dir ∈ state.1.dirs then state
  else if state.1.isFile (String.mk dir.data.dropLast) then (state.1, false)
  else ({ state.1 with dirs := state.1.dirs ++ [dir] }, true)

/-- The call `os.MkdirAll(dir, 0755)`, its error dropped as `Write` drops it: a directory
that exists is left as it is; else the missing directories on the way are created. -/
def FS.MkdirAll (fs : FS) (dir : String) : FS :=
  if dir ∈ fs.dirs then fs
  else ((dirPrefixes dir).foldl FS.mkdirStep (fs, true)).1

/-- The bytes of a file after `ioutil.WriteFile`: an existing file keeps its permission
bits, a new one gets `perm`. -/
def FS.setFile (files : List (String × List Nat × Nat)) (path : String) (data : List Nat)
    (perm : Nat) : List (String × List Nat × Nat) :=
  if (files.lookup path).isSome then
    files.map (fun p => if p.1 = path then (path, data, p.2.2) else p)
  else files ++ [(path, data, perm)]

/-- The call `ioutil.WriteFile(path, data, perm)`: an error, the filesystem unchanged,
when the path names no file, lies in no directory or names a directory; else the file
holds `data`. -/
def FS.WriteFile (fs : FS) (path : String) (data : List Nat) (perm : Nat) :
    Option String × FS :=
  if baseOf path = "" then (some ("open " ++ path ++ ": is a directory"), fs)
  else if dirOf path ≠ "" ∧ dirOf path ∉ fs.dirs then
    (some ("open " ++ path ++ ": no such file or directory"), fs)
  else if path ++ "/" ∈ fs.dirs then (some ("open " ++ path ++ ": is a directory"), fs)
  else (none, { fs with files := FS.setFile fs.files path data perm })

/-- The statement `if dir, _ := filepath.Split(filename); dir != "" { os.MkdirAll(dir, 0755) }`
of `FileHeader.Write`. -/
def FS.mkdirFor (fs : FS) (filename : String) : FS :=
  if dirOf filename ≠ "" then fs.MkdirAll (dirOf filename) else fs

/-! ## `FileHeader.Write` and `File.Write` -/

/-- The arguments of `strings.NewReplacer` in `FileHeader.Write`, in their order;
`year` is `fmt.Sprint(now.Year())` and `year2` is `year[2:]`. -/
def FileHeader.Write.pairs (now : Time) (header : FileHeader) (year year2 : List Char) :
    List (List Char × List Char) :=
  [("%Y".data, year),
   ("%y".data, year2),
   ("%m".data, pad2 now.Month),
   ("%d".data, pad2 now.Day),
   ("%H".data, pad2 now.Hour),
   ("%M".data, pad2 now.Minute),
   ("%S".data, pad2 now.Second),
   ("%f".data, header.Filename.data),
   ("%g".data, hexOf (md5 (bytesOf (header.Filename ++ toString header.Size))))]

/-- The destination path that `FileHeader.Write` computes (the variable `filename`):
the filename of the entry when the template is empty, else the template after
`rep.Replace`; `none` when `year[2:]` panics. -/
def FileHeader.Write.filename (now : Time) (header : FileHeader) (format : String) :
    Option String :=
  if format ≠ "" then
    match sliceFrom2 (toString now.Year).data with
    | none => none
    | some year2 =>
      some (String.mk (Replacer.Replace
        (FileHeader.Write.pairs now header (toString now.Year).data year2) 0 format.data))
  else some header.Filename

/-- The method `FileHeader.Write` at the clock reading `now` on the filesystem `fs`:
the error it returns (`none` is nil) and the filesystem it leaves; no result when it
panics. -/
def FileHeader.Write (now : Time) (fs : FS) (header : FileHeader) (format : String)
    (perm : Nat) (overwrite : Bool) : Option (Option String × FS) :=
  match header.Body with
  | Content.failure message => some (some message, fs)
  | Content.data buf =>
    match FileHeader.Write.filename now header format with
    | none => none
    | some filename =>
      let fs1 := fs.mkdirFor filename
      if overwrite = false ∧ fs1.Stat filename = true then
        some (some ("'" ++ filename ++ "' is already exists"), fs1)
      else some (fs1.WriteFile filename buf perm)

/-- The inner loop of `File.Write` over the entries of the field `name`; the entry
number `n` of the run reads the clock as `clock n`. -/
def File.Write.scanField (clock : Nat → Time) (savefile : String) (perm : Nat)
    (overwrite : Bool) (name : String) :
    Nat → FS → List FileHeader → Option (Option String × FS)
  | _, fs, [] => some (none, fs)
  | n, fs, header :: rest =>
    match header.Write (clock n) fs savefile perm overwrite with
    | none => none
    | some (some err, fs1) => some (some (name ++ ": " ++ err), fs1)
    | some (none, fs1) => File.Write.scanField clock savefile perm overwrite name (n + 1) fs1 rest

/-- The outer loop of `File.Write` over the fields. -/
def File.Write.scan (clock : Nat → Time) (savefile : String) (perm : Nat) (overwrite : Bool) :
    Nat → FS → List (String × List FileHeader) → Option (Option String × FS)
  | _, fs, [] => some (none, fs)
  | n, fs, (name, headers) :: rest =>
    match File.Write.scanField clock savefile perm overwrite name n fs headers with
    | none => none
    | some (some err, fs1) => some (some err, fs1)
    | some (none, fs1) =>
      File.Write.scan clock savefile perm overwrite (n + headers.length) fs1 rest

/-- The method `File.Write`, run on the filesystem `fs` with the clock `clock`. -/
def File.Write (clock : Nat → Time) (fs : FS) (file : File) : Option (Option String × FS) :=
  File.Write.scan clock file.savefile file.perm file.overwrite 0 fs file.Files

/-! ## The template: what the specification asks of the destination path -/

/-- The two decimal digits of a number below 100, zero-padded. -/
def digits2 (n : Nat) : List Char :=
  [Nat.digitChar (n / 10 % 10), Nat.digitChar (n % 10)]

/-- The four decimal digits of a number below 10000. -/
def digits4 (n : Nat) : List Char :=
  [Nat.digitChar (n / 1000 % 10), Nat.digitChar (n / 100 % 10), Nat.digitChar (n / 10 % 10),
    Nat.digitChar (n % 10)]

/-- The ranges of the fields of a clock reading: month 1 to 12, day 1 to 31, hour below
24, minute and second below 60. -/
def Time.valid (now : Time) : Prop :=
  1 ≤ now.Month ∧ now.Month ≤ 12 ∧ 1 ≤ now.Day ∧ now.Day ≤ 31 ∧ now.Hour ≤ 23 ∧
    now.Minute ≤ 59 ∧ now.Second ≤ 59

/-- A table of placeholders: the expansion of `%c` for the letter `c`, if it is one. -/
def placeholderTable (year year2 month day hour minute second filename digest : List Char)
    (c : Char) : Option (List Char) :=
  if c = 'Y' then some year
  else if c = 'y' then some year2
  else if c = 'm' then some month
  else if c = 'd' then some day
  else if c = 'H' then some hour
  else if c = 'M' then some minute
  else if c = 'S' then some second
  else if c = 'f' then some filename
  else if c = 'g' then some digest
  else none

/-- The table of the specification: 4-digit year, last 2 digits of the year, zero-padded
2-digit month, day, hour, minute and second, the original filename unmodified, and the
lowercase hex MD5 digest of the filename followed by the decimal declared size. -/
def expansionOf (now : Time) (header : FileHeader) : Char → Option (List Char) :=
  placeholderTable (digits4 now.Year.toNat) (digits2 (now.Year.toNat % 100))
    (digits2 now.Month) (digits2 now.Day) (digits2 now.Hour) (digits2 now.Minute)
    (digits2 now.Second) header.Filename.data
    (hexOf (md5 (bytesOf (header.Filename ++ toString header.Size))))

/-- One pass from left to right over a template: a `%` followed by a letter of the table
is replaced by the expansion and the pass continues behind the letter, so that the
expansion is not read again; every other character is copied. -/
def onePass (table : Char → Option (List Char)) : List Char → List Char
  | [] => []
  | [a] => [a]
  | a :: c :: rest =>
    if a = '%' then
      match table c with
      | some e => e ++ onePass table rest
      | none => a :: onePass table (c :: rest)
    else a :: onePass table (c :: rest)

/-- Whether a template holds a placeholder: a `%` followed by one of `YymdHMSfg`. -/
def hasPlaceholder : List Char → Bool
  | [] => false
  | [_] => false
  | a :: c :: rest =>
    (a == '%' && "YymdHMSfg".data.contains c) || hasPlaceholder (c :: rest)

/-! ## The iteration of `File.Write`: vocabulary of the statements -/

/-- The entries written one after the other, each without error, from entry number `n`:
the filesystem they leave, if each `Write` returned nil. -/
def writeEach (clock : Nat → Time) (savefile : String) (perm : Nat) (overwrite : Bool) :
    Nat → FS → List (String × FileHeader) → Option FS
  | _, fs, [] => some fs
  | n, fs, e :: rest =>
    match e.2.Write (clock n) fs savefile perm overwrite with
    | some (none, fs1) => writeEach clock savefile perm overwrite (n + 1) fs1 rest
    | _ => none

/-- The run of `File.Write` over the entries laid out in iteration order. -/
def writeFlat (clock : Nat → Time) (savefile : String) (perm : Nat) (overwrite : Bool) :
    Nat → FS → List (String × FileHeader) → Option (Option String × FS)
  | _, fs, [] => some (none, fs)
  | n, fs, e :: rest =>
    match e.2.Write (clock n) fs savefile perm overwrite with
    | none => none
    | some (some err, fs1) => some (some (e.1 ++ ": " ++ err), fs1)
    | some (none, fs1) => writeFlat clock savefile perm overwrite (n + 1) fs1 rest

/-! ## Fixtures of the write path -/

/-- A clock reading: 4 November 2026, 13:05:09. -/
def noon : Time :=
  { Year := 2026, Month := 11, Day := 4, Hour := 13, Minute := 5, Second := 9 }

/-- The filesystem without any entry. -/
def emptyFS : FS := { dirs := [], files := [] }

/-- The filesystem with the directory `test/dst/` and the file `test/dst/duplicate.txt`. -/
def usedFS : FS :=
  { dirs := ["test/", "test/dst/"], files := [("test/dst/duplicate.txt", [111, 108, 100], 420)] }

/-- An uploaded file with the given name whose content is the bytes `abcde`. -/
def upload (filename : String) : FileHeader :=
  { Filename := filename, Header := [], Size := 5,
    Body := Content.data [97, 98, 99, 100, 101] }

/-- An uploaded file whose content cannot be opened. -/
def unreadable (filename : String) : FileHeader :=
  { Filename := filename, Header := [], Size := 5,
    Body := Content.failure "open : no such file or directory" }

/-- The set of the overwrite test: two surviving entries and the template
`test/dst/duplicate.txt`, overwrite disabled. -/
def overwriteSet : File :=
  { headers := [("file1", [upload "data1.txt"]), ("file2", []), ("file3", [upload "data3.txt"])],
    perm := 420, savefile := "test/dst/duplicate.txt", overwrite := false, maxsize := 100,
    unique := ["data1.txt"], filenum := 3 }

/-! ## Arithmetic of `File.Size` -/

theorem wrap64_add_left (a b : Int) : wrap64 (wrap64 a + b) = wrap64 (a + b) := by
  unfold wrap64
  omega

theorem wrap64_idem (a : Int) : wrap64 (wrap64 a) = wrap64 a := by
  unfold wrap64
  omega

theorem wrap64_of_fits (a : Int) (h1 : -(2 ^ 63) ≤ a) (h2 : a < 2 ^ 63) : wrap64 a = a := by
  unfold wrap64
  omega

theorem wrap64_le_of_nonneg (a : Int) (h : 0 ≤ a) : wrap64 a ≤ a := by
  unfold wrap64
  omega

theorem Size_addField_eq (headers : List FileHeader) :
    ∀ result : Int, wrap64 result = result →
      File.Size.addField result headers
        = wrap64 (result + (headers.map FileHeader.Size).sum) := by
  induction headers with
  | nil => intro result h; simp [File.Size.addField, h]
  | cons header rest ih =>
    intro result _
    have step := ih (wrap64 (result + header.Size)) (wrap64_idem _)
    simp only [File.Size.addField, List.foldl_cons] at step ⊢
    rw [step, wrap64_add_left]
    simp [add_assoc]

theorem Size_fold_eq (headers : List (String × List FileHeader)) :
    ∀ result : Int, wrap64 result = result →
      headers.foldl (fun result p => File.Size.addField result p.2) result
        = wrap64 (result +
            ((headers.flatMap (fun p => p.2.map (fun h => (p.1, h)))).map
              (fun e => e.2.Size)).sum) := by
  induction headers with
  | nil => intro result h; simp [h]
  | cons p rest ih =>
    intro result h
    have h1 := Size_addField_eq p.2 result h
    have step := ih (File.Size.addField result p.2) (by rw [h1, wrap64_idem])
    simp only [List.foldl_cons, List.flatMap_cons, List.map_append, List.sum_append,
      List.map_map] at step ⊢
    rw [step, h1, wrap64_add_left]
    have e : (List.map ((fun e : String × FileHeader => e.2.Size) ∘ fun h => (p.1, h)) p.2)
        = List.map FileHeader.Size p.2 := by
      apply List.map_congr_left; intro a _; rfl
    rw [e, add_assoc]

/-- The method `Size` returns the exact total reduced to the `int64` range. -/
theorem Size_eq_wrap_total (f : File) : f.Size = wrap64 f.total := by
  have h := Size_fold_eq f.headers 0 (by decide)
  simpa [File.Size, File.total, File.entries] using h

/-! ## The aggregate check -/

/-- C1 (broken by the code): with `MaxSize = 0` and one 5-byte file, `SumLimitExceeded`
returns an error of kind `SumLimitExceeded` with `Filesize = 5` and `Maxsize = 0`, while
`LimitExceeded`, which tests `maxsize != 0`, returns nil on the same set. -/
theorem SumLimitExceeded_reports_when_MaxSize_zero :
    (mkConfig 0 0 false).MaxSize = 0 ∧
    (New oneFile (mkConfig 0 0 false)).SumLimitExceeded
      = some { Maxsize := 0, Filesize := 5, ErrorType := SumLimitExceeded } ∧
    (New oneFile (mkConfig 0 0 false)).LimitExceeded = none := by
  decide

/-- C2 as stated fails: two files of `2^62` bytes have the total `2^63`, above
`MaxSize = 15`, yet `Size()` wraps to `-2^63` and `SumLimitExceeded` returns nil. -/
theorem SumLimitExceeded_misses_wrapped_total :
    (New hugeFiles (mkConfig 15 0 false)).maxsize = 15 ∧
    (New hugeFiles (mkConfig 15 0 false)).total = 9223372036854775808 ∧
    (New hugeFiles (mkConfig 15 0 false)).Size = -9223372036854775808 ∧
    (New hugeFiles (mkConfig 15 0 false)).SumLimitExceeded = none := by
  decide

/-- C2 (amended): for every upload set and nonzero `MaxSize`, if the sum of the declared
sizes fits in a signed 64-bit integer and is strictly greater than `MaxSize`, then
`SumLimitExceeded` returns the error of kind `SumLimitExceeded` with `Filesize` that sum
and `Maxsize = MaxSize`. -/
theorem SumLimitExceeded_of_total_gt (f : File) (_hmax : f.maxsize ≠ 0)
    (hlo : -(2 ^ 63) ≤ f.total) (hhi : f.total < 2 ^ 63) (hgt : f.total > f.maxsize) :
    f.SumLimitExceeded
      = some { Maxsize := f.maxsize, Filesize := f.total, ErrorType := SumLimitExceeded } := by
  have hs : f.Size = f.total := by
    rw [Size_eq_wrap_total, wrap64_of_fits _ hlo hhi]
  simp [File.SumLimitExceeded, hs, hgt]

/-- Witness of C2: the files of 5, 10 and 15 bytes with `MaxSize = 15` give
`Filesize = 30`, `Maxsize = 15`. -/
theorem SumLimitExceeded_of_total_gt_witness :
    (New threeFiles (mkConfig 15 3 true)).SumLimitExceeded
      = some { Maxsize := 15, Filesize := 30, ErrorType := SumLimitExceeded } :=
  SumLimitExceeded_of_total_gt (New threeFiles (mkConfig 15 3 true))
    (by decide) (by decide) (by decide) (by decide)

/-! ## The per-file check -/

theorem LimitExceeded_scanField_eq (maxsize : Int) (hmax : maxsize ≠ 0) (name : String)
    (headers : List FileHeader) :
    File.LimitExceeded.scanField maxsize name headers
      = ((headers.map (fun h => (name, h))).find?
          (fun p => decide (maxsize < p.2.Size))).map (limitErrorOf maxsize) := by
  induction headers with
  | nil => rfl
  | cons header rest ih =>
    by_cases h : maxsize < header.Size
    · simp [File.LimitExceeded.scanField, hmax, h, limitErrorOf]
    · simp [File.LimitExceeded.scanField, h, ih]

theorem LimitExceeded_scan_eq (maxsize : Int) (hmax : maxsize ≠ 0)
    (headers : List (String × List FileHeader)) :
    File.LimitExceeded.scan maxsize headers
      = ((headers.flatMap (fun p => p.2.map (fun h => (p.1, h)))).find?
          (fun p => decide (maxsize < p.2.Size))).map (limitErrorOf maxsize) := by
  induction headers with
  | nil => rfl
  | cons p rest ih =>
    obtain ⟨name, hs⟩ := p
    simp only [File.LimitExceeded.scan, List.flatMap_cons, List.find?_append,
      LimitExceeded_scanField_eq maxsize hmax, ih]
    cases hfind : List.find? (fun p => decide (maxsize < p.2.Size))
        (List.map (fun h => (name, h)) hs) <;> simp

theorem LimitExceeded_scan_zero (headers : List (String × List FileHeader)) :
    File.LimitExceeded.scan 0 headers = none := by
  have field : ∀ (name : String) (hs : List FileHeader),
      File.LimitExceeded.scanField 0 name hs = none := by
    intro name hs
    induction hs with
    | nil => rfl
    | cons h t ih => simp [File.LimitExceeded.scanField, ih]
  induction headers with
  | nil => rfl
  | cons p rest ih =>
    obtain ⟨name, hs⟩ := p
    simp [File.LimitExceeded.scan, field, ih]

theorem uniqueError_kind (f : File) (e : Error) (h : f.uniqueError = some e) :
    e.ErrorType = UniqueFile := by
  unfold File.uniqueError at h
  split at h
  · cases h
  · cases h; rfl

theorem numExceeded_kind (f : File) (e : Error) (h : f.numExceeded = some e) :
    e.ErrorType = NumLimitExceeded := by
  simp only [File.numExceeded] at h
  split at h
  · cases h; rfl
  · cases h

/-- When no entry ends the scan, `LimitExceeded` is the duplicate report or the count check. -/
theorem LimitExceeded_of_scan_none (f : File)
    (h : File.LimitExceeded.scan f.maxsize f.headers = none) :
    f.LimitExceeded = (match f.uniqueError with
      | some e => some e
      | none => f.numExceeded) := by
  simp [File.LimitExceeded, h]

theorem LimitExceeded_tail_kind (f : File) (e : Error)
    (h : (match f.uniqueError with
      | some e => some e
      | none => f.numExceeded) = some e) :
    e.ErrorType = UniqueFile ∨ e.ErrorType = NumLimitExceeded := by
  cases hu : f.uniqueError with
  | some u =>
    rw [hu] at h
    cases h
    exact Or.inl (uniqueError_kind f _ hu)
  | none =>
    rw [hu] at h
    exact Or.inr (numExceeded_kind f _ h)

theorem LimitExceeded_of_find (f : File) (hmax : f.maxsize ≠ 0) (p : String × FileHeader)
    (hp : f.entries.find? (fun p => decide (f.maxsize < p.2.Size)) = some p) :
    f.LimitExceeded = some (limitErrorOf f.maxsize p) := by
  simp only [File.entries] at hp
  simp [File.LimitExceeded, LimitExceeded_scan_eq f.maxsize hmax f.headers, hp]

theorem LimitExceeded_kind_of_find_none (f : File) (hmax : f.maxsize ≠ 0)
    (hn : f.entries.find? (fun p => decide (f.maxsize < p.2.Size)) = none) (e : Error)
    (he : f.LimitExceeded = some e) : e.ErrorType ≠ LimitExceeded := by
  simp only [File.entries] at hn
  rw [LimitExceeded_of_scan_none f
    (by simp [LimitExceeded_scan_eq f.maxsize hmax f.headers, hn])] at he
  rcases LimitExceeded_tail_kind f e he with h | h <;> rw [h] <;> decide

theorem LimitExceeded_kind_of_violation (f : File) (hmax : f.maxsize ≠ 0)
    (h : ∃ p ∈ f.entries, f.maxsize < p.2.Size) :
    ∃ e, f.LimitExceeded = some e ∧ e.ErrorType = LimitExceeded := by
  obtain ⟨p, hp, hlt⟩ := h
  cases hfind : f.entries.find? (fun p => decide (f.maxsize < p.2.Size)) with
  | none =>
    have := List.find?_eq_none.1 hfind p hp
    simp [hlt] at this
  | some q => exact ⟨_, LimitExceeded_of_find f hmax q hfind, rfl⟩

/-- C3: for every upload set with nonzero `MaxSize`, `LimitExceeded` returns an error of
kind `LimitExceeded` exactly when some entry has a declared size strictly greater than
`MaxSize`; the error is then built from the first such entry in iteration order (every
entry before it is at most `MaxSize`) and carries its field name, filename, size and
header and `Maxsize = MaxSize`; a reported entry is never of size `MaxSize`. -/
theorem LimitExceeded_reports_first_over_limit (f : File) (hmax : f.maxsize ≠ 0) :
    ((∃ e, f.LimitExceeded = some e ∧ e.ErrorType = LimitExceeded) ↔
      ∃ p ∈ f.entries, f.maxsize < p.2.Size) ∧
    (∀ pre p post, f.entries = pre ++ p :: post →
      (∀ q ∈ pre, q.2.Size ≤ f.maxsize) → f.maxsize < p.2.Size →
      f.LimitExceeded = some
        { Maxsize := f.maxsize, Filename := p.2.Filename, Filesize := p.2.Size,
          Attrname := p.1, Header := p.2.Header, ErrorType := LimitExceeded }) ∧
    (∀ e, f.LimitExceeded = some e → e.ErrorType = LimitExceeded →
      f.maxsize < e.Filesize ∧ e.Filesize ≠ f.maxsize ∧ e.Maxsize = f.maxsize) := by
  refine ⟨⟨?_, LimitExceeded_kind_of_violation f hmax⟩, ?_, ?_⟩
  · rintro ⟨e, he, hk⟩
    cases hfind : f.entries.find? (fun p => decide (f.maxsize < p.2.Size)) with
    | none => exact absurd hk (LimitExceeded_kind_of_find_none f hmax hfind e he)
    | some p =>
      exact ⟨p, List.mem_of_find?_eq_some hfind, by
        simpa using List.find?_some hfind⟩
  · intro pre p post hsplit hpre hlt
    have hfind : f.entries.find? (fun p => decide (f.maxsize < p.2.Size)) = some p := by
      rw [hsplit, List.find?_append]
      have : List.find? (fun p => decide (f.maxsize < p.2.Size)) pre = none := by
        apply List.find?_eq_none.2
        intro q hq
        have := hpre q hq
        simp only [decide_eq_true_eq]
        omega
      simp [this, hlt]
    exact LimitExceeded_of_find f hmax p hfind
  · intro e he hk
    cases hfind : f.entries.find? (fun p => decide (f.maxsize < p.2.Size)) with
    | none => exact absurd hk (LimitExceeded_kind_of_find_none f hmax hfind e he)
    | some p =>
      have hlt : f.maxsize < p.2.Size := by simpa using List.find?_some hfind
      have := LimitExceeded_of_find f hmax p hfind
      rw [this] at he
      cases he
      simp only [limitErrorOf]
      exact ⟨hlt, by omega, trivial⟩

/-- Witness of C3: sizes 5, 10, 15 with limit 10 report the 15-byte entry of `file3`,
not the 10-byte entry of `file2`. -/
theorem LimitExceeded_reports_first_over_limit_witness :
    (New threeFiles (mkConfig 10 3 true)).LimitExceeded
      = some { Maxsize := 10, Filename := "data3.txt", Filesize := 15, Attrname := "file3",
               Header := [], ErrorType := LimitExceeded } :=
  (LimitExceeded_reports_first_over_limit (New threeFiles (mkConfig 10 3 true))
      (by decide)).2.1
    [("file1", mkHeader "data1.txt" 5), ("file2", mkHeader "data2.txt" 10)]
    ("file3", mkHeader "data3.txt" 15) [] (by decide) (by decide) (by decide)

/-! ## Iteration order and the fields that `New` copies -/

theorem SameSet_refl (f : File) : f.SameSet f :=
  ⟨List.Perm.refl _, List.Perm.refl _, rfl, rfl, rfl, rfl, rfl⟩

theorem SameSet_entries {f g : File} (h : f.SameSet g) : f.entries.Perm g.entries :=
  List.Perm.flatMap_right _ h.1

theorem SameSet_total {f g : File} (h : f.SameSet g) : f.total = g.total :=
  List.Perm.sum_eq (List.Perm.map _ (SameSet_entries h))

theorem SameSet_count {f g : File} (h : f.SameSet g) : f.count = g.count :=
  List.Perm.length_eq (SameSet_entries h)

theorem SameSet_Size {f g : File} (h : f.SameSet g) : f.Size = g.Size := by
  rw [Size_eq_wrap_total, Size_eq_wrap_total, SameSet_total h]

theorem Filenum_fold_eq (headers : List (String × List FileHeader)) :
    ∀ n : Int, headers.foldl (fun filenum p => filenum + (p.2.length : Int)) n
      = n + ((headers.flatMap (fun p => p.2.map (fun h => (p.1, h)))).length : Int) := by
  induction headers with
  | nil => intro n; simp
  | cons p rest ih =>
    intro n
    simp only [List.foldl_cons, List.flatMap_cons, List.length_append, List.length_map, ih]
    push_cast
    ring

/-- The method `Filenum` counts the entries of the set. -/
theorem Filenum_eq_count (f : File) : f.Filenum = (f.count : Int) := by
  simpa [File.Filenum, File.count, File.entries] using Filenum_fold_eq f.headers 0

theorem scanForm_config (isUnique : Bool) (files : List (String × List FileHeader)) :
    ∀ (uniq : List String) (file : File),
      (New.scanForm isUnique files uniq file).maxsize = file.maxsize ∧
      (New.scanForm isUnique files uniq file).filenum = file.filenum := by
  induction files with
  | nil => intro uniq file; exact ⟨rfl, rfl⟩
  | cons p rest ih =>
    intro uniq file
    obtain ⟨name, hs⟩ := p
    simp only [New.scanForm]
    exact ih _ _

/-- The set built by `New` holds `MaxSize` as it is. -/
theorem New_maxsize (r : Request) (cfg : UploadFiles) : (New r cfg).maxsize = cfg.MaxSize := by
  unfold New
  cases r.MultipartForm with
  | none => rfl
  | some form =>
    cases hf : form.File with
    | none => simp [hf]
    | some files => simp [hf, (scanForm_config cfg.Unique files [] _).1]

/-- The set built by `New` holds `Filenum` when it is positive and `0` otherwise. -/
theorem New_filenum (r : Request) (cfg : UploadFiles) :
    (New r cfg).filenum = if cfg.Filenum > 0 then cfg.Filenum else 0 := by
  unfold New
  cases r.MultipartForm with
  | none => rfl
  | some form =>
    cases hf : form.File with
    | none => simp [hf]
    | some files => simp [hf, (scanForm_config cfg.Unique files [] _).2]

/-! ## The order of the checks -/

theorem LimitExceeded_scan_none_of_no_violation (f : File)
    (h : ∀ p ∈ f.entries, ¬ (f.maxsize ≠ 0 ∧ f.maxsize < p.2.Size)) :
    File.LimitExceeded.scan f.maxsize f.headers = none := by
  by_cases hmax : f.maxsize = 0
  · rw [hmax]; exact LimitExceeded_scan_zero _
  · rw [LimitExceeded_scan_eq f.maxsize hmax]
    have : List.find? (fun p : String × FileHeader => decide (f.maxsize < p.2.Size))
        f.entries = none := by
      apply List.find?_eq_none.2
      intro p hp
      have := h p hp
      simp only [decide_eq_true_eq]
      tauto
    simp only [File.entries] at this
    simp [this]

theorem numExceeded_eq (f : File) :
    f.numExceeded = if f.filenum ≠ 0 ∧ (f.count : Int) > f.filenum then
      some { Maxsize := f.filenum, Filesize := (f.count : Int), ErrorType := NumLimitExceeded }
    else none := by
  simp only [File.numExceeded, Filenum_eq_count]

theorem SumLimitExceeded_tail (f : File) (h : ¬ f.Size > f.maxsize) :
    f.SumLimitExceeded = (match f.uniqueError with
      | some e => some e
      | none => f.numExceeded) := by
  simp [File.SumLimitExceeded, h]

theorem uniqueError_of_nil (f : File) (h : f.unique = []) : f.uniqueError = none := by
  simp [File.uniqueError, h]

theorem uniqueError_of_ne_nil (f : File) (h : f.unique ≠ []) :
    ∃ name, name ∈ f.unique ∧
      f.uniqueError = some { Filename := name, ErrorType := UniqueFile } := by
  cases hu : f.unique with
  | nil => exact absurd hu h
  | cons name rest => exact ⟨name, by simp, by simp [File.uniqueError, hu]⟩

/-- C5 as stated fails: the sum of the declared sizes, `2^63`, exceeds the nonzero
`MaxSize = 15`, and a duplicate is recorded; `Size()` wraps to `-2^63`, and
`SumLimitExceeded` returns the error of kind `UniqueFile`, not the size kind. -/
theorem SumLimitExceeded_duplicate_before_wrapped_total :
    (New hugeDuplicateFiles (mkConfig 15 0 true)).maxsize = 15 ∧
    (New hugeDuplicateFiles (mkConfig 15 0 true)).total = 9223372036854775808 ∧
    (New hugeDuplicateFiles (mkConfig 15 0 true)).unique = ["a.bin"] ∧
    (New hugeDuplicateFiles (mkConfig 15 0 true)).SumLimitExceeded
      = some { Filename := "a.bin", ErrorType := UniqueFile } := by
  decide

/-- C5 (amended): the precedence of both checks, for every upload set.  If the size
violation of the check holds, the error has the size kind whatever the duplicate set and
the count are: for `SumLimitExceeded` a nonzero `MaxSize` exceeded by the sum of the
declared sizes reduced to a signed 64-bit integer (the sum itself when it fits), for
`LimitExceeded` an entry over a nonzero `MaxSize`.  Otherwise, that is for
`SumLimitExceeded` when the reduced sum is at most `MaxSize` and for `LimitExceeded` when
no entry is over a nonzero `MaxSize`, a non-empty duplicate set gives kind `UniqueFile`
whatever the count is, and an empty one gives exactly the result of `numExceeded`, which
is nil or of kind `NumLimitExceeded`.  Nothing is said of `SumLimitExceeded` at
`MaxSize = 0` with a positive sum. -/
theorem checks_precedence (f : File) :
    (f.maxsize ≠ 0 → wrap64 f.total > f.maxsize →
      f.SumLimitExceeded = some
        { Maxsize := f.maxsize, Filesize := wrap64 f.total,
          ErrorType := SumLimitExceeded }) ∧
    ((∃ p ∈ f.entries, f.maxsize ≠ 0 ∧ f.maxsize < p.2.Size) →
      ∃ e, f.LimitExceeded = some e ∧ e.ErrorType = LimitExceeded) ∧
    (f.unique ≠ [] →
      (wrap64 f.total ≤ f.maxsize →
        ∃ e, f.SumLimitExceeded = some e ∧ e.ErrorType = UniqueFile) ∧
      (¬ (∃ p ∈ f.entries, f.maxsize ≠ 0 ∧ f.maxsize < p.2.Size) →
        ∃ e, f.LimitExceeded = some e ∧ e.ErrorType = UniqueFile)) ∧
    (f.unique = [] →
      (wrap64 f.total ≤ f.maxsize → f.SumLimitExceeded = f.numExceeded) ∧
      (¬ (∃ p ∈ f.entries, f.maxsize ≠ 0 ∧ f.maxsize < p.2.Size) →
        f.LimitExceeded = f.numExceeded)) ∧
    (f.numExceeded = none ∨
      ∃ e, f.numExceeded = some e ∧ e.ErrorType = NumLimitExceeded) ∧
    (-(2 ^ 63) ≤ f.total → f.total < 2 ^ 63 → wrap64 f.total = f.total) := by
  have hscan : ¬ (∃ p ∈ f.entries, f.maxsize ≠ 0 ∧ f.maxsize < p.2.Size) →
      File.LimitExceeded.scan f.maxsize f.headers = none := by
    intro h
    apply LimitExceeded_scan_none_of_no_violation
    intro p hp hv
    exact h ⟨p, hp, hv⟩
  have hle : wrap64 f.total ≤ f.maxsize → ¬ f.Size > f.maxsize := by
    intro h
    rw [Size_eq_wrap_total]
    omega
  refine ⟨?_, ?_, ?_, ?_, ?_, ?_⟩
  · intro _ h
    have hs : f.Size > f.maxsize := by rw [Size_eq_wrap_total]; exact h
    simp only [File.SumLimitExceeded, hs, if_true]
    rw [Size_eq_wrap_total]
  · rintro ⟨p, hp, hmax, hlt⟩
    exact LimitExceeded_kind_of_violation f hmax ⟨p, hp, hlt⟩
  · intro hdup
    obtain ⟨name, _, hname⟩ := uniqueError_of_ne_nil f hdup
    constructor
    · intro h
      exact ⟨_, by rw [SumLimitExceeded_tail f (hle h), hname], rfl⟩
    · intro h
      exact ⟨_, by rw [LimitExceeded_of_scan_none f (hscan h), hname], rfl⟩
  · intro hdup
    constructor
    · intro h
      rw [SumLimitExceeded_tail f (hle h), uniqueError_of_nil f hdup]
    · intro h
      rw [LimitExceeded_of_scan_none f (hscan h), uniqueError_of_nil f hdup]
  · cases h : f.numExceeded with
    | none => exact Or.inl rfl
    | some e => exact Or.inr ⟨e, rfl, numExceeded_kind f e h⟩
  · exact wrap64_of_fits f.total

/-- Witness of C5: with a duplicate recorded and the count over `Filenum = 1`, limit 10
gives the size kind in both checks (sum 20 over 10, the 15-byte file over 10); with limit
100 both give `UniqueFile`; without duplicates and with 3 files over `Filenum = 2` both
give the result of `numExceeded`. -/
theorem checks_precedence_witness :
    ((New duplicateFiles (mkConfig 10 1 true)).unique ≠ [] ∧
      (New duplicateFiles (mkConfig 10 1 true)).numExceeded ≠ none ∧
      (New duplicateFiles (mkConfig 10 1 true)).SumLimitExceeded
        = some { Maxsize := 10, Filesize := 20, ErrorType := SumLimitExceeded } ∧
      (∃ e, (New duplicateFiles (mkConfig 10 1 true)).LimitExceeded = some e ∧
        e.ErrorType = LimitExceeded)) ∧
    ((New duplicateFiles (mkConfig 100 1 true)).numExceeded ≠ none ∧
      (∃ e, (New duplicateFiles (mkConfig 100 1 true)).SumLimitExceeded = some e ∧
        e.ErrorType = UniqueFile) ∧
      (∃ e, (New duplicateFiles (mkConfig 100 1 true)).LimitExceeded = some e ∧
        e.ErrorType = UniqueFile)) ∧
    ((New threeFiles (mkConfig 100 2 true)).SumLimitExceeded
        = (New threeFiles (mkConfig 100 2 true)).numExceeded ∧
      (New threeFiles (mkConfig 100 2 true)).LimitExceeded
        = (New threeFiles (mkConfig 100 2 true)).numExceeded) :=
  ⟨⟨by decide, by decide,
      ((checks_precedence (New duplicateFiles (mkConfig 10 1 true))).1 (by decide)
        (by decide)).trans (by decide),
      (checks_precedence (New duplicateFiles (mkConfig 10 1 true))).2.1
        ⟨("file3", mkHeader "data3.txt" 15), by decide, by decide, by decide⟩⟩,
    ⟨by decide,
      ((checks_precedence (New duplicateFiles (mkConfig 100 1 true))).2.2.1
        (by decide)).1 (by decide),
      ((checks_precedence (New duplicateFiles (mkConfig 100 1 true))).2.2.1
        (by decide)).2 (by decide)⟩,
    ⟨((checks_precedence (New threeFiles (mkConfig 100 2 true))).2.2.2.1
        (by decide)).1 (by decide),
      ((checks_precedence (New threeFiles (mkConfig 100 2 true))).2.2.2.1
        (by decide)).2 (by decide)⟩⟩

/-! ## The count check -/

theorem LimitExceeded_scan_kind (maxsize : Int) (headers : List (String × List FileHeader))
    (e : Error) (h : File.LimitExceeded.scan maxsize headers = some e) :
    e.ErrorType = LimitExceeded := by
  have field : ∀ (name : String) (hs : List FileHeader),
      File.LimitExceeded.scanField maxsize name hs = some e →
        e.ErrorType = LimitExceeded := by
    intro name hs
    induction hs with
    | nil => intro h; cases h
    | cons header rest ih =>
      intro h
      simp only [File.LimitExceeded.scanField] at h
      split at h
      · cases h; rfl
      · exact ih h
  induction headers with
  | nil => cases h
  | cons p rest ih =>
    obtain ⟨name, hs⟩ := p
    simp only [File.LimitExceeded.scan] at h
    cases hfield : File.LimitExceeded.scanField maxsize name hs with
    | some e1 =>
      rw [hfield] at h
      cases h
      exact field name hs hfield
    | none =>
      rw [hfield] at h
      exact ih h

/-- An error of kind `NumLimitExceeded` returned by a check is the error of `numExceeded`. -/
theorem checks_Num_from_numExceeded (f : File) (e : Error)
    (h : f.SumLimitExceeded = some e ∨ f.LimitExceeded = some e)
    (hk : e.ErrorType = NumLimitExceeded) : f.numExceeded = some e := by
  have tail : (match f.uniqueError with
      | some e => some e
      | none => f.numExceeded) = some e → f.numExceeded = some e := by
    intro ht
    cases hu : f.uniqueError with
    | some u =>
      rw [hu] at ht
      cases ht
      have := uniqueError_kind f _ hu
      rw [hk] at this
      exact absurd this (by decide)
    | none =>
      rw [hu] at ht
      exact ht
  rcases h with h | h
  · by_cases hs : f.Size > f.maxsize
    · simp only [File.SumLimitExceeded, hs, if_true] at h
      cases h
      have hk2 : Uploadfile.SumLimitExceeded = NumLimitExceeded := hk
      exact absurd hk2 (by decide)
    · rw [SumLimitExceeded_tail f hs] at h
      exact tail h
  · cases hscan : File.LimitExceeded.scan f.maxsize f.headers with
    | some e1 =>
      have he : f.LimitExceeded = some e1 := by simp [File.LimitExceeded, hscan]
      rw [he] at h
      cases h
      have := LimitExceeded_scan_kind _ _ _ hscan
      rw [hk] at this
      exact absurd this (by decide)
    | none =>
      rw [LimitExceeded_of_scan_none f hscan] at h
      exact tail h

/-- C4 as stated fails: `Filenum = -1` is nonzero and the one entry of the set is more
than `-1`, there is no size violation and no duplicate, yet both checks return nil:
`New` stores a count limit only when `Filenum > 0`. -/
theorem checks_pass_with_negative_Filenum :
    (mkConfig 100 (-1) true).Filenum ≠ 0 ∧
    ((New oneFile (mkConfig 100 (-1) true)).count : Int) > (mkConfig 100 (-1) true).Filenum ∧
    (New oneFile (mkConfig 100 (-1) true)).total = 5 ∧
    (New oneFile (mkConfig 100 (-1) true)).unique = [] ∧
    (New oneFile (mkConfig 100 (-1) true)).filenum = 0 ∧
    (New oneFile (mkConfig 100 (-1) true)).SumLimitExceeded = none ∧
    (New oneFile (mkConfig 100 (-1) true)).LimitExceeded = none := by
  decide

/-- C4 (amended): for every set built by `New`, read in any iteration order: when
`Size()` is at most `MaxSize`, no entry is over a nonzero `MaxSize` and the duplicate
set is empty, a positive `Filenum` that the entry count exceeds makes both checks return
the error of kind `NumLimitExceeded` with `Filesize` the count and `Maxsize = Filenum`;
when `Filenum` is zero or negative, neither check ever returns a `NumLimitExceeded`
error. -/
theorem checks_count_exceeded (r : Request) (cfg : UploadFiles) (f : File)
    (hf : f.SameSet (New r cfg)) :
    (¬ f.Size > cfg.MaxSize →
      (∀ p ∈ f.entries, ¬ (cfg.MaxSize ≠ 0 ∧ cfg.MaxSize < p.2.Size)) →
      f.unique = [] → 0 < cfg.Filenum → (f.count : Int) > cfg.Filenum →
      f.SumLimitExceeded = some
        { Maxsize := cfg.Filenum, Filesize := (f.count : Int),
          ErrorType := NumLimitExceeded } ∧
      f.LimitExceeded = some
        { Maxsize := cfg.Filenum, Filesize := (f.count : Int),
          ErrorType := NumLimitExceeded }) ∧
    (cfg.Filenum ≤ 0 →
      ∀ e, f.SumLimitExceeded = some e ∨ f.LimitExceeded = some e →
        e.ErrorType ≠ NumLimitExceeded) := by
  have hmaxsize : f.maxsize = cfg.MaxSize := by
    rw [hf.2.2.2.2.2.1, New_maxsize]
  have hfilenum : f.filenum = if cfg.Filenum > 0 then cfg.Filenum else 0 := by
    rw [hf.2.2.2.2.2.2, New_filenum]
  constructor
  · intro hsum hfile hdup hpos hgt
    have hnum : f.numExceeded = some
        { Maxsize := cfg.Filenum, Filesize := (f.count : Int),
          ErrorType := NumLimitExceeded } := by
      rw [numExceeded_eq, hfilenum]
      have h1 : cfg.Filenum > 0 := hpos
      have h2 : cfg.Filenum ≠ 0 := by omega
      simp [h1, h2, hgt]
    rw [← hmaxsize] at hsum hfile
    constructor
    · rw [SumLimitExceeded_tail f hsum, uniqueError_of_nil f hdup, hnum]
    · rw [LimitExceeded_of_scan_none f (LimitExceeded_scan_none_of_no_violation f hfile),
        uniqueError_of_nil f hdup, hnum]
  · intro hle e he hk
    have hnum := checks_Num_from_numExceeded f e he hk
    have h1 : ¬ cfg.Filenum > 0 := by omega
    rw [numExceeded_eq, hfilenum] at hnum
    simp [h1] at hnum

/-- Witness of C4: the 3 files of the test data with `Filenum = 2` and `MaxSize = 100`
give count 3, max 2 in both checks. -/
theorem checks_count_exceeded_witness :
    (New threeFiles (mkConfig 100 2 true)).SumLimitExceeded
      = some { Maxsize := 2, Filesize := 3, ErrorType := NumLimitExceeded } ∧
    (New threeFiles (mkConfig 100 2 true)).LimitExceeded
      = some { Maxsize := 2, Filesize := 3, ErrorType := NumLimitExceeded } :=
  (checks_count_exceeded threeFiles (mkConfig 100 2 true) (New threeFiles (mkConfig 100 2 true))
    (SameSet_refl _)).1 (by decide) (by decide) (by decide) (by decide) (by decide)

/-! ## The passing case -/

/-- C10: for every set built by `New`, read in any iteration order, whose entries all
have non-negative declared sizes: if the total declared size is at most `MaxSize`, the
duplicate set is empty and `Filenum` is 0 or the entry count is at most `Filenum`, then
`SumLimitExceeded` and `LimitExceeded` both return nil. -/
theorem checks_pass_within_limits (r : Request) (cfg : UploadFiles) (f : File)
    (hf : f.SameSet (New r cfg)) (hnn : ∀ p ∈ f.entries, 0 ≤ p.2.Size)
    (htot : f.total ≤ cfg.MaxSize) (hdup : f.unique = [])
    (hnum : cfg.Filenum = 0 ∨ (f.count : Int) ≤ cfg.Filenum) :
    f.SumLimitExceeded = none ∧ f.LimitExceeded = none := by
  have hmaxsize : f.maxsize = cfg.MaxSize := by
    rw [hf.2.2.2.2.2.1, New_maxsize]
  have hfilenum : f.filenum = if cfg.Filenum > 0 then cfg.Filenum else 0 := by
    rw [hf.2.2.2.2.2.2, New_filenum]
  have hsizes : ∀ x ∈ f.entries.map (fun e => e.2.Size), (0 : Int) ≤ x := by
    intro x hx
    obtain ⟨p, hp, rfl⟩ := List.mem_map.1 hx
    exact hnn p hp
  have htotal : 0 ≤ f.total := List.sum_nonneg hsizes
  have hsum : ¬ f.Size > f.maxsize := by
    have := wrap64_le_of_nonneg f.total htotal
    rw [Size_eq_wrap_total, hmaxsize]
    omega
  have hfile : ∀ p ∈ f.entries, ¬ (f.maxsize ≠ 0 ∧ f.maxsize < p.2.Size) := by
    intro p hp hv
    have hle : p.2.Size ≤ f.total :=
      List.single_le_sum hsizes _ (List.mem_map.2 ⟨p, hp, rfl⟩)
    rw [hmaxsize] at hv
    omega
  have hnone : f.numExceeded = none := by
    rw [numExceeded_eq, hfilenum]
    by_cases hpos : cfg.Filenum > 0
    · have : ¬ (f.count : Int) > cfg.Filenum := by omega
      simp [hpos, this]
    · simp [hpos]
  constructor
  · rw [SumLimitExceeded_tail f hsum, uniqueError_of_nil f hdup, hnone]
  · rw [LimitExceeded_of_scan_none f (LimitExceeded_scan_none_of_no_violation f hfile),
      uniqueError_of_nil f hdup, hnone]

/-- Witness of C10: one 5-byte file with `MaxSize = 10` and `Filenum = 2`. -/
theorem checks_pass_within_limits_witness :
    (New oneFile (mkConfig 10 2 true)).SumLimitExceeded = none ∧
    (New oneFile (mkConfig 10 2 true)).LimitExceeded = none :=
  checks_pass_within_limits oneFile (mkConfig 10 2 true) (New oneFile (mkConfig 10 2 true))
    (SameSet_refl _) (by decide) (by decide) (by decide) (by decide)

/-! ## The positional description of the first occurrences -/

theorem keepFirst_congr (s1 s2 : List String) (h : ∀ x, x ∈ s1 ↔ x ∈ s2)
    (headers : List FileHeader) : keepFirst s1 headers = keepFirst s2 headers := by
  unfold keepFirst
  congr 1
  apply List.filter_congr
  intro jh _
  simp only [List.mem_append, h]

theorem keepFirst_nil (seen : List String) : keepFirst seen [] = [] := rfl

theorem keepFirst_cons (seen : List String) (header : FileHeader) (rest : List FileHeader) :
    keepFirst seen (header :: rest)
      = (if header.Filename ∈ seen then [] else [header])
          ++ keepFirst (seen ++ [header.Filename]) rest := by
  unfold keepFirst
  rw [List.enum_cons, ← List.map_fst_add_enum_eq_enumFrom rest 1, List.filter_cons,
    List.filter_map]
  have hrest : List.filter ((fun jh : Nat × FileHeader =>
        decide (jh.2.Filename ∉ seen ++ filenamesOf ((header :: rest).take jh.1))) ∘
          Prod.map (fun x => x + 1) id) rest.enum
      = List.filter (fun jh : Nat × FileHeader =>
        decide (jh.2.Filename ∉ (seen ++ [header.Filename]) ++ filenamesOf (rest.take jh.1)))
          rest.enum := by
    apply List.filter_congr
    intro jh _
    simp [filenamesOf, List.take_succ_cons]
  rw [hrest]
  have hmap : ∀ l : List (Nat × FileHeader),
      List.map Prod.snd (List.map (Prod.map (fun x => x + 1) id) l) = List.map Prod.snd l := by
    intro l
    rw [List.map_map]
    apply List.map_congr_left
    intro jh _
    rfl
  by_cases hseen : header.Filename ∈ seen <;> simp [hseen, filenamesOf, hmap]

theorem keptFrom_congr (files : List (String × List FileHeader)) :
    ∀ s1 s2 : List String, (∀ x, x ∈ s1 ↔ x ∈ s2) → keptFrom s1 files = keptFrom s2 files := by
  induction files with
  | nil => intro s1 s2 _; rfl
  | cons p rest ih =>
    intro s1 s2 h
    obtain ⟨name, hs⟩ := p
    simp only [keptFrom]
    rw [keepFirst_congr s1 s2 h, ih (s1 ++ filenamesOf hs) (s2 ++ filenamesOf hs)]
    intro x
    simp only [List.mem_append, h]

theorem firstOccurrences_from (files : List (String × List FileHeader)) :
    ∀ seen : List String,
      files.enum.map (fun ip =>
        (ip.2.1, keepFirst (seen ++ filenamesOf ((files.take ip.1).flatMap Prod.snd)) ip.2.2))
      = keptFrom seen files := by
  induction files with
  | nil => intro seen; rfl
  | cons p rest ih =>
    intro seen
    obtain ⟨name, hs⟩ := p
    rw [List.enum_cons, ← List.map_fst_add_enum_eq_enumFrom rest 1, List.map_cons,
      List.map_map]
    have hnil : filenamesOf [] = [] := rfl
    simp only [keptFrom, List.take_zero, List.flatMap_nil, hnil, List.append_nil]
    congr 1
    rw [← ih (seen ++ filenamesOf hs)]
    apply List.map_congr_left
    intro ip _
    simp [filenamesOf, List.take_succ_cons, List.append_assoc]

/-- The positional description `firstOccurrences` unfolds field by field. -/
theorem firstOccurrences_eq_keptFrom (files : List (String × List FileHeader)) :
    firstOccurrences files = keptFrom [] files := by
  rw [← firstOccurrences_from files []]
  simp [firstOccurrences]

/-! ## Properties of the first occurrences -/

theorem keepFirst_filenames (headers : List FileHeader) :
    ∀ seen : List String,
      (filenamesOf (keepFirst seen headers)).Nodup ∧
      ∀ x, x ∈ filenamesOf (keepFirst seen headers) ↔ x ∈ filenamesOf headers ∧ x ∉ seen := by
  induction headers with
  | nil => intro seen; simp [keepFirst_nil, filenamesOf]
  | cons header rest ih =>
    intro seen
    obtain ⟨hnodup, hmem⟩ := ih (seen ++ [header.Filename])
    rw [keepFirst_cons]
    by_cases hseen : header.Filename ∈ seen
    · simp only [hseen, if_true, List.nil_append]
      refine ⟨hnodup, ?_⟩
      intro x
      rw [hmem]
      simp only [filenamesOf, List.map_cons, List.mem_cons, List.mem_append,
        List.not_mem_nil, or_false]
      constructor
      · rintro ⟨h1, h2⟩
        exact ⟨Or.inr h1, fun h => h2 (Or.inl h)⟩
      · rintro ⟨h1 | h1, h2⟩
        · exact absurd (h1 ▸ hseen) h2
        · exact ⟨h1, fun h => h.elim h2 (fun h => h2 (h ▸ hseen))⟩
    · simp only [hseen, if_false, List.singleton_append]
      constructor
      · simp only [filenamesOf, List.map_cons, List.nodup_cons]
        refine ⟨?_, hnodup⟩
        intro h
        have := ((hmem header.Filename).1 h).2
        simp at this
      · intro x
        simp only [filenamesOf, List.map_cons, List.mem_cons]
        have := hmem x
        simp only [filenamesOf, List.mem_append, List.mem_cons, List.not_mem_nil,
          or_false] at this
        rw [this]
        constructor
        · rintro (h | ⟨h1, h2⟩)
          · exact ⟨Or.inl h, h ▸ hseen⟩
          · exact ⟨Or.inr h1, fun h => h2 (Or.inl h)⟩
        · rintro ⟨h1 | h1, h2⟩
          · exact Or.inl h1
          · by_cases hx : x = header.Filename
            · exact Or.inl hx
            · exact Or.inr ⟨h1, fun h => h.elim h2 hx⟩

theorem keepFirst_of_nodup (headers : List FileHeader) :
    ∀ seen : List String, (filenamesOf headers).Nodup →
      (∀ x ∈ filenamesOf headers, x ∉ seen) → keepFirst seen headers = headers := by
  induction headers with
  | nil => intro seen _ _; rfl
  | cons header rest ih =>
    intro seen hnodup hdisj
    simp only [filenamesOf, List.map_cons, List.nodup_cons] at hnodup
    have hseen : header.Filename ∉ seen := hdisj _ (by simp [filenamesOf])
    rw [keepFirst_cons, ih (seen ++ [header.Filename]) hnodup.2]
    · simp [hseen]
    · intro x hx
      simp only [List.mem_append, List.mem_singleton, not_or]
      have hx2 : x ∈ filenamesOf (header :: rest) := by
        simp only [filenamesOf, List.map_cons, List.mem_cons]
        exact Or.inr hx
      refine ⟨hdisj x hx2, ?_⟩
      rintro rfl
      exact hnodup.1 hx

theorem keptFrom_keys (files : List (String × List FileHeader)) :
    ∀ seen : List String, (keptFrom seen files).map Prod.fst = files.map Prod.fst := by
  induction files with
  | nil => intro seen; rfl
  | cons p rest ih =>
    intro seen
    obtain ⟨name, hs⟩ := p
    simp [keptFrom, ih]

theorem keptFrom_filenames (files : List (String × List FileHeader)) :
    ∀ seen : List String,
      (filenamesOf ((keptFrom seen files).flatMap Prod.snd)).Nodup ∧
      ∀ x, x ∈ filenamesOf ((keptFrom seen files).flatMap Prod.snd) ↔
        x ∈ filenamesOf (files.flatMap Prod.snd) ∧ x ∉ seen := by
  induction files with
  | nil => intro seen; simp [keptFrom, filenamesOf]
  | cons p rest ih =>
    intro seen
    obtain ⟨name, hs⟩ := p
    obtain ⟨hn1, hm1⟩ := keepFirst_filenames hs seen
    obtain ⟨hn2, hm2⟩ := ih (seen ++ filenamesOf hs)
    simp only [filenamesOf, keptFrom, List.flatMap_cons, List.map_append, List.mem_append]
      at hn1 hm1 hn2 hm2 ⊢
    constructor
    · rw [List.nodup_append]
      refine ⟨hn1, hn2, ?_⟩
      intro x hx1 hx2
      exact ((hm2 x).1 hx2).2 (Or.inr ((hm1 x).1 hx1).1)
    · intro x
      rw [hm1, hm2]
      tauto

theorem keptFrom_of_nodup (files : List (String × List FileHeader)) :
    ∀ seen : List String, (filenamesOf (files.flatMap Prod.snd)).Nodup →
      (∀ x ∈ filenamesOf (files.flatMap Prod.snd), x ∉ seen) → keptFrom seen files = files := by
  induction files with
  | nil => intro seen _ _; rfl
  | cons p rest ih =>
    intro seen hnodup hdisj
    obtain ⟨name, hs⟩ := p
    simp only [filenamesOf, List.flatMap_cons, List.map_append, List.nodup_append,
      List.mem_append] at hnodup hdisj
    simp only [keptFrom]
    rw [keepFirst_of_nodup hs seen hnodup.1 (fun x hx => hdisj x (Or.inl hx)),
      ih (seen ++ filenamesOf hs) hnodup.2.1]
    intro x hx
    simp only [List.mem_append, not_or]
    exact ⟨hdisj x (Or.inr hx), fun h => hnodup.2.2 h hx⟩

/-! ## The loops of `New` -/

theorem mem_setAdd (s : List String) (k x : String) : x ∈ setAdd s k ↔ x ∈ s ∨ x = k := by
  unfold setAdd
  by_cases h : k ∈ s
  · simp only [h, if_true]
    constructor
    · exact Or.inl
    · rintro (h1 | rfl)
      · exact h1
      · exact h
  · simp [h]

theorem setAdd_nodup (s : List String) (k : String) (h : s.Nodup) : (setAdd s k).Nodup := by
  unfold setAdd
  by_cases hk : k ∈ s
  · simpa [hk] using h
  · simp only [hk, if_false]
    rw [List.nodup_append]
    refine ⟨h, List.nodup_singleton k, ?_⟩
    intro x hx hx2
    rw [List.mem_singleton] at hx2
    exact hk (hx2 ▸ hx)

theorem count_filenames_cons (x : String) (header : FileHeader) (rest : List FileHeader) :
    (filenamesOf (header :: rest)).count x
      = (filenamesOf rest).count x + (if header.Filename = x then 1 else 0) := by
  simp only [filenamesOf, List.map_cons, List.count_cons, beq_iff_eq]

theorem mem_filenames_iff_count (x : String) (headers : List FileHeader) :
    x ∈ filenamesOf headers ↔ 0 < (filenamesOf headers).count x :=
  List.count_pos_iff.symm

/-- The inner loop with `Unique` enabled: the slice grows by the first occurrences of the
field, `uniq` by the filenames of the field, `file.unique` by the filenames met again. -/
theorem scanField_unique (headers : List FileHeader) :
    ∀ (uniq unique : List String) (acc : List FileHeader),
      (New.scanField true headers uniq unique acc).2.2 = acc ++ keepFirst uniq headers ∧
      (∀ x, x ∈ (New.scanField true headers uniq unique acc).1 ↔
        x ∈ uniq ∨ x ∈ filenamesOf headers) ∧
      (∀ x, x ∈ (New.scanField true headers uniq unique acc).2.1 ↔
        x ∈ unique ∨ (x ∈ uniq ∧ x ∈ filenamesOf headers) ∨
          2 ≤ (filenamesOf headers).count x) ∧
      (unique.Nodup → (New.scanField true headers uniq unique acc).2.1.Nodup) := by
  induction headers with
  | nil =>
    intro uniq unique acc
    simp [New.scanField, keepFirst_nil, filenamesOf]
  | cons header rest ih =>
    intro uniq unique acc
    by_cases hseen : header.Filename ∈ uniq
    · obtain ⟨h1, h2, h3, h4⟩ := ih uniq (setAdd unique header.Filename) acc
      simp only [New.scanField, hseen, if_true]
      refine ⟨?_, ?_, ?_, ?_⟩
      · rw [h1, keepFirst_cons]
        simp only [hseen, if_true, List.nil_append]
        rw [keepFirst_congr (uniq ++ [header.Filename]) uniq]
        intro x
        simp only [List.mem_append, List.mem_singleton]
        constructor
        · rintro (h | rfl)
          · exact h
          · exact hseen
        · exact Or.inl
      · intro x
        rw [h2]
        simp only [filenamesOf, List.map_cons, List.mem_cons]
        constructor
        · rintro (h | h)
          · exact Or.inl h
          · exact Or.inr (Or.inr h)
        · rintro (h | rfl | h)
          · exact Or.inl h
          · exact Or.inl hseen
          · exact Or.inr h
      · intro x
        rw [h3, mem_setAdd, mem_filenames_iff_count, mem_filenames_iff_count,
          count_filenames_cons]
        by_cases hx : header.Filename = x
        · subst hx
          simp only [if_true]
          constructor
          · intro _
            exact Or.inr (Or.inl ⟨hseen, by omega⟩)
          · intro _
            exact Or.inl (Or.inr trivial)
        · have hx2 : ¬ x = header.Filename := fun h => hx h.symm
          simp only [hx, hx2, if_false, or_false, Nat.add_zero]
      · intro hn
        exact h4 (setAdd_nodup _ _ hn)
    · obtain ⟨h1, h2, h3, h4⟩ := ih (setAdd uniq header.Filename) unique (acc ++ [header])
      simp only [New.scanField, hseen, if_true, if_false]
      have huniq : ∀ x, x ∈ setAdd uniq header.Filename ↔ x ∈ uniq ++ [header.Filename] := by
        intro x
        rw [mem_setAdd]
        simp
      refine ⟨?_, ?_, ?_, h4⟩
      · rw [h1, keepFirst_cons]
        simp only [hseen, if_false, List.append_assoc]
        rw [keepFirst_congr _ _ huniq]
      · intro x
        rw [h2, mem_setAdd]
        simp only [filenamesOf, List.map_cons, List.mem_cons]
        tauto
      · intro x
        rw [h3, mem_setAdd, mem_filenames_iff_count, mem_filenames_iff_count,
          count_filenames_cons]
        by_cases hx : header.Filename = x
        · subst hx
          simp only [if_true, hseen, false_and, false_or, or_true, true_and]
          constructor
          · rintro (h | h | h)
            · exact Or.inl h
            · exact Or.inr (by omega)
            · exact Or.inr (by omega)
          · rintro (h | h)
            · exact Or.inl h
            · exact Or.inr (Or.inl (by omega))
        · have hx2 : ¬ x = header.Filename := fun h => hx h.symm
          simp only [hx, hx2, if_false, or_false, Nat.add_zero]

/-- The inner loop with `Unique` disabled appends every descriptor and leaves both
filename maps as they are. -/
theorem scanField_plain (headers : List FileHeader) :
    ∀ (uniq unique : List String) (acc : List FileHeader),
      New.scanField false headers uniq unique acc = (uniq, unique, acc ++ headers) := by
  induction headers with
  | nil => intro uniq unique acc; simp [New.scanField]
  | cons header rest ih =>
    intro uniq unique acc
    simp [New.scanField, ih]

theorem mapSet_fresh {V : Type} (m : List (String × V)) (k : String) (v : V)
    (h : k ∉ m.map Prod.fst) : mapSet m k v = m ++ [(k, v)] := by
  simp only [mapSet, h, if_false]

/-- The outer loop with `Unique` enabled, on a form whose field names are distinct and
not yet in the set: the set grows by the first occurrences of every field. -/
theorem scanForm_unique_headers (files : List (String × List FileHeader)) :
    ∀ (uniq : List String) (file : File), (files.map Prod.fst).Nodup →
      (∀ k ∈ files.map Prod.fst, k ∉ file.headers.map Prod.fst) →
      (New.scanForm true files uniq file).headers = file.headers ++ keptFrom uniq files := by
  induction files with
  | nil => intro uniq file _ _; simp [New.scanForm, keptFrom]
  | cons p rest ih =>
    intro uniq file hnodup hfresh
    obtain ⟨name, hs⟩ := p
    simp only [List.map_cons, List.nodup_cons, List.mem_cons, forall_eq_or_imp] at hnodup hfresh
    obtain ⟨h1, h2, _, _⟩ := scanField_unique hs uniq file.unique []
    simp only [New.scanForm, keptFrom]
    rw [ih _ _ hnodup.2]
    · simp only [h1, List.nil_append, mapSet_fresh _ _ _ hfresh.1, List.append_assoc,
        List.singleton_append]
      rw [keptFrom_congr rest _ (uniq ++ filenamesOf hs)]
      intro x
      rw [h2, List.mem_append]
    · intro k hk
      simp only [mapSet_fresh _ _ _ hfresh.1, List.map_append, List.map_cons, List.map_nil,
        List.mem_append, List.mem_singleton, not_or]
      refine ⟨hfresh.2 k hk, ?_⟩
      rintro rfl
      exact hnodup.1 hk

/-- The outer loop with `Unique` enabled: a filename is recorded in `file.unique` when
it was there, or was seen before the form and occurs in it, or occurs twice in it. -/
theorem scanForm_unique_dups (files : List (String × List FileHeader)) :
    ∀ (uniq : List String) (file : File),
      (∀ x, x ∈ (New.scanForm true files uniq file).unique ↔
        x ∈ file.unique ∨ (x ∈ uniq ∧ x ∈ filenamesOf (files.flatMap Prod.snd)) ∨
          2 ≤ (filenamesOf (files.flatMap Prod.snd)).count x) ∧
      (file.unique.Nodup → (New.scanForm true files uniq file).unique.Nodup) := by
  induction files with
  | nil => intro uniq file; simp [New.scanForm, filenamesOf]
  | cons p rest ih =>
    intro uniq file
    obtain ⟨name, hs⟩ := p
    obtain ⟨_, h2, h3, h4⟩ := scanField_unique hs uniq file.unique []
    simp only [New.scanForm]
    obtain ⟨i1, i2⟩ := ih (New.scanField true hs uniq file.unique []).1
      { file with unique := (New.scanField true hs uniq file.unique []).2.1,
                  headers := mapSet file.headers name
                    (New.scanField true hs uniq file.unique []).2.2 }
    refine ⟨?_, fun hn => i2 (h4 hn)⟩
    intro x
    rw [i1]
    simp only [h2, h3]
    have hcount : (filenamesOf (((name, hs) :: rest).flatMap Prod.snd)).count x
        = (filenamesOf hs).count x + (filenamesOf (rest.flatMap Prod.snd)).count x := by
      simp [filenamesOf, List.flatMap_cons, List.count_append]
    rw [hcount, mem_filenames_iff_count, mem_filenames_iff_count, mem_filenames_iff_count,
      hcount]
    by_cases ha : x ∈ file.unique <;> by_cases hb : x ∈ uniq <;>
      simp only [ha, hb, true_or, or_true, false_or, or_false, true_and, false_and,
        and_true] <;> omega

/-- The outer loop with `Unique` disabled copies the form and records no filename. -/
theorem scanForm_plain (files : List (String × List FileHeader)) :
    ∀ (uniq : List String) (file : File), (files.map Prod.fst).Nodup →
      (∀ k ∈ files.map Prod.fst, k ∉ file.headers.map Prod.fst) →
      (New.scanForm false files uniq file).headers = file.headers ++ files := by
  induction files with
  | nil => intro uniq file _ _; simp [New.scanForm]
  | cons p rest ih =>
    intro uniq file hnodup hfresh
    obtain ⟨name, hs⟩ := p
    simp only [List.map_cons, List.nodup_cons, List.mem_cons, forall_eq_or_imp] at hnodup hfresh
    simp only [New.scanForm, scanField_plain]
    rw [ih _ _ hnodup.2]
    · simp [mapSet_fresh _ _ _ hfresh.1]
    · intro k hk
      simp only [mapSet_fresh _ _ _ hfresh.1, List.map_append, List.map_cons, List.map_nil,
        List.mem_append, List.mem_singleton, not_or]
      refine ⟨hfresh.2 k hk, ?_⟩
      rintro rfl
      exact hnodup.1 hk

theorem scanForm_plain_unique (files : List (String × List FileHeader)) :
    ∀ (uniq : List String) (file : File),
      (New.scanForm false files uniq file).unique = file.unique := by
  induction files with
  | nil => intro uniq file; rfl
  | cons p rest ih =>
    intro uniq file
    obtain ⟨name, hs⟩ := p
    simp only [New.scanForm, scanField_plain]
    rw [ih]

/-- The function `New` runs its outer loop over the fields of the request, from the set
without entries; a request without parsed form has no field. -/
theorem New_eq_scanForm (r : Request) (cfg : UploadFiles) :
    New r cfg = New.scanForm cfg.Unique r.files []
      { headers := [], perm := cfg.Perm, savefile := cfg.SaveFile,
        overwrite := cfg.Overwrite, maxsize := cfg.MaxSize, unique := [],
        filenum := if cfg.Filenum > 0 then cfg.Filenum else 0 } := by
  unfold New Request.files
  cases r.MultipartForm with
  | none => rfl
  | some form =>
    cases hf : form.File with
    | none => simp [hf, New.scanForm]
    | some files => simp [hf]

/-- With `Unique` enabled and distinct field names, `New` builds the first occurrences. -/
theorem New_headers_unique (r : Request) (cfg : UploadFiles) (hU : cfg.Unique = true)
    (hkeys : (r.files.map Prod.fst).Nodup) : (New r cfg).headers = keptFrom [] r.files := by
  rw [New_eq_scanForm, hU, scanForm_unique_headers r.files [] _ hkeys (by simp)]
  simp

/-- With `Unique` enabled, the duplicate set of `New` holds the filenames met twice. -/
theorem New_unique_mem (r : Request) (cfg : UploadFiles) (hU : cfg.Unique = true) (x : String) :
    x ∈ (New r cfg).unique ↔ 2 ≤ r.filenames.count x := by
  rw [New_eq_scanForm, hU, (scanForm_unique_dups r.files [] _).1 x]
  simp [Request.filenames, filenamesOf]

theorem New_unique_nodup (r : Request) (cfg : UploadFiles) (hU : cfg.Unique = true) :
    (New r cfg).unique.Nodup := by
  rw [New_eq_scanForm, hU]
  exact (scanForm_unique_dups r.files [] _).2 List.nodup_nil

/-- With `Unique` disabled, `New` copies the fields and records no duplicate. -/
theorem New_plain (r : Request) (cfg : UploadFiles) (hU : cfg.Unique = false) :
    (New r cfg).unique = [] ∧
      ((r.files.map Prod.fst).Nodup → (New r cfg).headers = r.files) := by
  rw [New_eq_scanForm, hU]
  refine ⟨scanForm_plain_unique _ _ _, fun hkeys => ?_⟩
  rw [scanForm_plain r.files [] _ hkeys (by simp)]
  simp

/-! ## The set built by `New` -/

theorem entries_filenames (f : File) :
    f.entries.map (fun e => e.2.Filename) = filenamesOf (f.headers.flatMap Prod.snd) := by
  unfold File.entries filenamesOf
  induction f.headers with
  | nil => rfl
  | cons p rest ih =>
    simp only [List.flatMap_cons, List.map_append, ih, List.map_map]
    congr 1

theorem count_eq_length_filenames (f : File) :
    f.count = (filenamesOf (f.headers.flatMap Prod.snd)).length := by
  rw [← entries_filenames, List.length_map, File.count]

theorem Request.files_ofFiles (m : List (String × List FileHeader)) :
    (Request.ofFiles m).files = m := rfl

/-- C6: with `Unique` enabled (and the field names of the form distinct, as the keys of
a map are), the mapping built by `New` is the mapping of first occurrences: of every
filename exactly the first occurrence in iteration order is kept and every later one, in
any field, is left out; no two entries of the set share a filename; and the duplicate set
holds exactly the filenames that occur more than once in the request. -/
theorem New_keeps_first_occurrences (r : Request) (cfg : UploadFiles)
    (hU : cfg.Unique = true) (hkeys : (r.files.map Prod.fst).Nodup) :
    (New r cfg).headers = firstOccurrences r.files ∧
    ((New r cfg).entries.map (fun e => e.2.Filename)).Nodup ∧
    (New r cfg).unique.Nodup ∧
    (∀ name, name ∈ (New r cfg).unique ↔ 2 ≤ r.filenames.count name) := by
  refine ⟨?_, ?_, New_unique_nodup r cfg hU, New_unique_mem r cfg hU⟩
  · rw [New_headers_unique r cfg hU hkeys, firstOccurrences_eq_keptFrom]
  · rw [entries_filenames, New_headers_unique r cfg hU hkeys]
    exact (keptFrom_filenames r.files []).1

/-- Witness of C6: of the two fields uploading `data1.txt` the first keeps it, the
second is left empty, and the duplicate set is `data1.txt`. -/
theorem New_keeps_first_occurrences_witness :
    (New duplicateFiles (mkConfig 100 3 true)).headers
      = [("file1", [mkHeader "data1.txt" 5]), ("file2", []),
          ("file3", [mkHeader "data3.txt" 15])] ∧
    ("data1.txt" ∈ (New duplicateFiles (mkConfig 100 3 true)).unique ↔
      2 ≤ duplicateFiles.filenames.count "data1.txt") :=
  ⟨(New_keeps_first_occurrences duplicateFiles (mkConfig 100 3 true) rfl (by decide)).1.trans
      (by decide),
    (New_keeps_first_occurrences duplicateFiles (mkConfig 100 3 true) rfl
      (by decide)).2.2.2 "data1.txt"⟩

/-- C7: for every set built by `New` (field names distinct), read in any iteration
order: `Filenum()` is the number of distinct filenames of the request when `Unique` is
enabled and the number of descriptors when it is disabled; the duplicate set is empty
when `Unique` is disabled or the filenames of the request are pairwise distinct. -/
theorem Filenum_of_New (r : Request) (cfg : UploadFiles) (f : File)
    (hf : f.SameSet (New r cfg)) (hkeys : (r.files.map Prod.fst).Nodup) :
    (cfg.Unique = true → f.Filenum = (r.filenames.toFinset.card : Int)) ∧
    (cfg.Unique = false → f.Filenum = (r.filenames.length : Int)) ∧
    (cfg.Unique = false ∨ r.filenames.Nodup → f.unique = []) := by
  have hcount : f.Filenum = ((New r cfg).count : Int) := by
    rw [Filenum_eq_count, SameSet_count hf]
  refine ⟨?_, ?_, ?_⟩
  · intro hU
    obtain ⟨hnodup, hmem⟩ := keptFrom_filenames r.files []
    rw [hcount, count_eq_length_filenames, New_headers_unique r cfg hU hkeys,
      ← List.toFinset_card_of_nodup hnodup]
    congr 2
    ext x
    rw [List.mem_toFinset, List.mem_toFinset, hmem]
    simp only [Request.filenames, filenamesOf, List.not_mem_nil, not_false_eq_true,
      and_true]
  · intro hU
    rw [hcount, count_eq_length_filenames, (New_plain r cfg hU).2 hkeys]
    rfl
  · intro h
    have hnil : (New r cfg).unique = [] := by
      cases hU : cfg.Unique with
      | false => exact (New_plain r cfg hU).1
      | true =>
        rcases h with h | h
        · rw [hU] at h; cases h
        · apply List.eq_nil_iff_forall_not_mem.2
          intro x hx
          have h2 := (New_unique_mem r cfg hU x).1 hx
          have h1 := List.nodup_iff_count_le_one.1 h x
          omega
    have hperm := hf.2.1
    rw [hnil] at hperm
    exact List.Perm.eq_nil hperm

/-- Witness of C7: the three descriptors with two distinct filenames give `Filenum() = 2`
with `Unique` enabled. -/
theorem Filenum_of_New_witness :
    (New duplicateFiles (mkConfig 100 3 true)).Filenum
      = (duplicateFiles.filenames.toFinset.card : Int) :=
  (Filenum_of_New duplicateFiles (mkConfig 100 3 true) (New duplicateFiles (mkConfig 100 3 true))
    (SameSet_refl _) (by decide)).1 rfl

/-- C8: deduplication is idempotent.  The mapping of the set that `New` builds with
`Unique` enabled, fed to `New` again with `Unique` enabled in any iteration order of its
fields, comes back as it is (same fields, same entries, same order) with an empty
duplicate set. -/
theorem New_dedup_idempotent (r : Request) (cfg cfg2 : UploadFiles)
    (hU : cfg.Unique = true) (hU2 : cfg2.Unique = true)
    (hkeys : (r.files.map Prod.fst).Nodup)
    (m : List (String × List FileHeader)) (hm : m.Perm (New r cfg).headers) :
    (New (Request.ofFiles m) cfg2).headers = m ∧ (New (Request.ofFiles m) cfg2).unique = [] := by
  have hkeys2 : ((Request.ofFiles m).files.map Prod.fst).Nodup := by
    rw [Request.files_ofFiles]
    have hp : (m.map Prod.fst).Perm (r.files.map Prod.fst) := by
      have := List.Perm.map Prod.fst hm
      rwa [New_headers_unique r cfg hU hkeys, keptFrom_keys] at this
    exact hp.nodup_iff.2 hkeys
  have hnames : (filenamesOf (m.flatMap Prod.snd)).Nodup := by
    have hp : (filenamesOf (m.flatMap Prod.snd)).Perm
        (filenamesOf ((New r cfg).headers.flatMap Prod.snd)) :=
      List.Perm.map _ (List.Perm.flatMap_right _ hm)
    rw [hp.nodup_iff, New_headers_unique r cfg hU hkeys]
    exact (keptFrom_filenames r.files []).1
  constructor
  · rw [New_headers_unique _ cfg2 hU2 hkeys2, Request.files_ofFiles]
    exact keptFrom_of_nodup m [] hnames (by simp)
  · apply List.eq_nil_iff_forall_not_mem.2
    intro x hx
    have h2 := (New_unique_mem _ cfg2 hU2 x).1 hx
    have h1 := List.nodup_iff_count_le_one.1 hnames x
    simp only [Request.filenames, Request.files_ofFiles, filenamesOf] at h1 h2
    omega

/-- Witness of C8: the set deduplicated from the two uploads of `data1.txt` is rebuilt
as it is, with no duplicate. -/
theorem New_dedup_idempotent_witness :
    (New (Request.ofFiles (New duplicateFiles (mkConfig 100 3 true)).headers)
        (mkConfig 100 3 true)).headers = (New duplicateFiles (mkConfig 100 3 true)).headers ∧
    (New (Request.ofFiles (New duplicateFiles (mkConfig 100 3 true)).headers)
        (mkConfig 100 3 true)).unique = [] :=
  New_dedup_idempotent duplicateFiles (mkConfig 100 3 true) (mkConfig 100 3 true) rfl rfl
    (by decide) _ (List.Perm.refl _)

/-- C9 (broken by the code): the filename `data1.txt` is uploaded in two fields, `Unique`
is enabled and `MaxSize = 0` sets no size limit, so the set has no size violation;
`SumLimitExceeded` returns the error of kind `SumLimitExceeded` (`Filesize = 20`,
`Maxsize = 0`) and not the error of kind `UniqueFile`, which `LimitExceeded`, testing
`maxsize != 0`, returns on the same set. -/
theorem SumLimitExceeded_hides_duplicate_when_MaxSize_zero :
    (mkConfig 0 3 true).MaxSize = 0 ∧ (mkConfig 0 3 true).Unique = true ∧
    2 ≤ duplicateFiles.filenames.count "data1.txt" ∧
    (New duplicateFiles (mkConfig 0 3 true)).unique = ["data1.txt"] ∧
    (New duplicateFiles (mkConfig 0 3 true)).SumLimitExceeded
      = some { Maxsize := 0, Filesize := 20, ErrorType := SumLimitExceeded } ∧
    (New duplicateFiles (mkConfig 0 3 true)).LimitExceeded
      = some { Filename := "data1.txt", ErrorType := UniqueFile } := by
  decide

/-- With `Unique` enabled and a filename carried by at least two descriptors, a check
that finds `Size()` at most `MaxSize`, respectively no entry over a nonzero `MaxSize`,
returns the error of kind `UniqueFile` for a filename that occurs more than once, in
every iteration order of the set built by `New`. -/
theorem UniqueFile_reported_within_limit (r : Request) (cfg : UploadFiles) (f : File)
    (hU : cfg.Unique = true) (hf : f.SameSet (New r cfg))
    (hdup : ∃ x, 2 ≤ r.filenames.count x) :
    (¬ f.Size > cfg.MaxSize →
      ∃ name, 2 ≤ r.filenames.count name ∧
        f.SumLimitExceeded = some { Filename := name, ErrorType := UniqueFile }) ∧
    ((∀ p ∈ f.entries, ¬ (cfg.MaxSize ≠ 0 ∧ cfg.MaxSize < p.2.Size)) →
      ∃ name, 2 ≤ r.filenames.count name ∧
        f.LimitExceeded = some { Filename := name, ErrorType := UniqueFile }) := by
  have hmaxsize : f.maxsize = cfg.MaxSize := by
    rw [hf.2.2.2.2.2.1, New_maxsize]
  have hne : f.unique ≠ [] := by
    obtain ⟨x, hx⟩ := hdup
    have hx1 : x ∈ f.unique := hf.2.1.mem_iff.2 ((New_unique_mem r cfg hU x).2 hx)
    intro h
    rw [h] at hx1
    exact List.not_mem_nil _ hx1
  obtain ⟨name, hname, herr⟩ := uniqueError_of_ne_nil f hne
  have hcount : 2 ≤ r.filenames.count name :=
    (New_unique_mem r cfg hU name).1 (hf.2.1.mem_iff.1 hname)
  rw [← hmaxsize]
  constructor
  · intro hsum
    exact ⟨name, hcount, by rw [SumLimitExceeded_tail f hsum, herr]⟩
  · intro hfile
    exact ⟨name, hcount, by
      rw [LimitExceeded_of_scan_none f (LimitExceeded_scan_none_of_no_violation f hfile),
        herr]⟩

/-! ## The total size -/

/-- C11 as stated fails: two files of `2^62` bytes have the sum `2^63`, and `Size()`
returns `-2^63`. -/
theorem Size_wraps_on_huge_files :
    (New hugeFiles (mkConfig 0 0 true)).total = 9223372036854775808 ∧
    (New hugeFiles (mkConfig 0 0 true)).Size = -9223372036854775808 ∧
    (New hugeFiles (mkConfig 0 0 true)).Size ≠ (New hugeFiles (mkConfig 0 0 true)).total := by
  decide

/-- C11 (amended): for every upload set whose sum of declared sizes fits in a signed
64-bit integer, `Size()` equals that sum over every entry of every field; and when the
set is one that `New` built with `Unique` enabled, read in any iteration order, the sum
runs over the first occurrences only: entries dropped as duplicates add nothing. -/
theorem Size_eq_total_of_fits (f : File) (hlo : -(2 ^ 63) ≤ f.total) (hhi : f.total < 2 ^ 63) :
    f.Size = (f.entries.map (fun e => e.2.Size)).sum ∧
    (∀ (r : Request) (cfg : UploadFiles), cfg.Unique = true → (r.files.map Prod.fst).Nodup →
      f.SameSet (New r cfg) →
      f.Size = (((firstOccurrences r.files).flatMap Prod.snd).map FileHeader.Size).sum) := by
  have hs : f.Size = f.total := by
    rw [Size_eq_wrap_total, wrap64_of_fits _ hlo hhi]
  refine ⟨hs, ?_⟩
  intro r cfg hU hkeys hf
  rw [hs, SameSet_total hf, firstOccurrences_eq_keptFrom, ← New_headers_unique r cfg hU hkeys]
  unfold File.total File.entries
  induction (New r cfg).headers with
  | nil => rfl
  | cons p rest ih =>
    simp only [List.flatMap_cons, List.map_append, List.sum_append, ih, List.map_map]
    congr 1

/-- Witness of C11: the two uploads of `data1.txt` and `data3.txt` give `Size() = 20`,
the dropped second `data1.txt` adding nothing. -/
theorem Size_eq_total_of_fits_witness :
    (New duplicateFiles (mkConfig 100 3 true)).Size = 20 :=
  (Size_eq_total_of_fits (New duplicateFiles (mkConfig 100 3 true)) (by decide)
    (by decide)).1.trans (by decide)

/-! ## The set of a request that was not parsed -/

/-- C12: for every configuration, `New` on a request whose `MultipartForm` is nil, or
whose form has a nil `File` map, returns the set without entries: `Filenum() = 0`,
`Size() = 0`, and for every field name `Headers(name)` is empty and `Get(name)` is nil;
no duplicate is recorded. -/
theorem New_of_unparsed (r : Request) (cfg : UploadFiles)
    (h : r.MultipartForm = none ∨ ∃ form, r.MultipartForm = some form ∧ form.File = none) :
    (New r cfg).Filenum = 0 ∧ (New r cfg).Size = 0 ∧ (New r cfg).Files = [] ∧
    (New r cfg).unique = [] ∧
    ∀ name, (New r cfg).Headers name = [] ∧ (New r cfg).Get name = none := by
  have hnew : New r cfg =
      { headers := [], perm := cfg.Perm, savefile := cfg.SaveFile,
        overwrite := cfg.Overwrite, maxsize := cfg.MaxSize, unique := [],
        filenum := if cfg.Filenum > 0 then cfg.Filenum else 0 } := by
    unfold New
    rcases h with h | ⟨form, h1, h2⟩
    · rw [h]
    · rw [h1]
      simp only [h2]
  rw [hnew]
  refine ⟨rfl, rfl, rfl, rfl, fun name => ⟨rfl, rfl⟩⟩

/-- Witness of C12: the request before `ParseMultipartForm`, as in the test. -/
theorem New_of_unparsed_witness :
    (New unparsed (mkConfig 10 2 true)).Filenum = 0 ∧
    (New unparsed (mkConfig 10 2 true)).Size = 0 ∧
    (New unparsed (mkConfig 10 2 true)).Files = [] ∧
    (New unparsed (mkConfig 10 2 true)).unique = [] ∧
    ∀ name, (New unparsed (mkConfig 10 2 true)).Headers name = [] ∧
      (New unparsed (mkConfig 10 2 true)).Get name = none :=
  New_of_unparsed unparsed (mkConfig 10 2 true) (Or.inl rfl)

/-! ## The keys of the mapping -/

/-- C19 as stated fails: the field `empty` of the form carries no descriptor, and it is
a key of the mapping built by `New`, mapped to the empty sequence. -/
theorem New_keeps_empty_field :
    emptyField.files = [("empty", [])] ∧
    (New emptyField (mkConfig 0 0 true)).Files = [("empty", [])] ∧
    "empty" ∈ (New emptyField (mkConfig 0 0 true)).Files.map Prod.fst := by
  decide

theorem New_headers_keys (r : Request) (cfg : UploadFiles)
    (hkeys : (r.files.map Prod.fst).Nodup) :
    (New r cfg).headers.map Prod.fst = r.files.map Prod.fst := by
  cases hU : cfg.Unique with
  | false => rw [(New_plain r cfg hU).2 hkeys]
  | true => rw [New_headers_unique r cfg hU hkeys, keptFrom_keys]

/-- C19 (amended): for every request (field names distinct) and every iteration order
of the set built by `New`, the field names that are keys of `Files()` are exactly the
field names of the form: every input field, also one all of whose descriptors were
dropped as duplicates and one that carried no descriptor; with `Unique` enabled each is
mapped to its first occurrences, possibly the empty sequence. -/
theorem Files_keys_of_New (r : Request) (cfg : UploadFiles) (f : File)
    (hf : f.SameSet (New r cfg)) (hkeys : (r.files.map Prod.fst).Nodup) :
    (∀ name, name ∈ f.Files.map Prod.fst ↔ name ∈ r.files.map Prod.fst) ∧
    (cfg.Unique = true → f.Files.Perm (firstOccurrences r.files)) := by
  constructor
  · intro name
    have hp : (f.Files.map Prod.fst).Perm ((New r cfg).headers.map Prod.fst) :=
      List.Perm.map _ hf.1
    rw [hp.mem_iff, New_headers_keys r cfg hkeys]
  · intro hU
    have := hf.1
    rwa [New_headers_unique r cfg hU hkeys, ← firstOccurrences_eq_keptFrom] at this

/-- Witness of C19: the field `file2`, whose only descriptor is dropped as a duplicate,
stays a key and is mapped to the empty sequence. -/
theorem Files_keys_of_New_witness :
    ("file2" ∈ (New duplicateFiles (mkConfig 100 3 true)).Files.map Prod.fst ↔
      "file2" ∈ duplicateFiles.files.map Prod.fst) ∧
    (New duplicateFiles (mkConfig 100 3 true)).Headers "file2" = [] :=
  ⟨(Files_keys_of_New duplicateFiles (mkConfig 100 3 true)
      (New duplicateFiles (mkConfig 100 3 true)) (SameSet_refl _) (by decide)).1 "file2",
    by decide⟩

/-! ## The per-file check implies the aggregate check -/

theorem LimitExceeded_violation_of_kind (f : File) (hmax : f.maxsize ≠ 0) (e : Error)
    (he : f.LimitExceeded = some e) (hk : e.ErrorType = LimitExceeded) :
    ∃ p ∈ f.entries, f.maxsize < p.2.Size := by
  cases hfind : f.entries.find? (fun p => decide (f.maxsize < p.2.Size)) with
  | none => exact absurd hk (LimitExceeded_kind_of_find_none f hmax hfind e he)
  | some p =>
    exact ⟨p, List.mem_of_find?_eq_some hfind, by simpa using List.find?_some hfind⟩

/-- C20: for every upload set whose entries all have non-negative declared sizes with a
total that fits in a signed 64-bit integer, and every nonzero `MaxSize`: if
`LimitExceeded` returns an error of kind `LimitExceeded`, then `SumLimitExceeded`, on the
same set read in any iteration order, returns an error of kind `SumLimitExceeded`;
equivalently, when `SumLimitExceeded` reports no aggregate violation, `LimitExceeded`
reports no per-file violation. -/
theorem SumLimitExceeded_of_LimitExceeded (f g : File) (hg : g.SameSet f)
    (hmax : f.maxsize ≠ 0) (hnn : ∀ p ∈ f.entries, 0 ≤ p.2.Size) (hfit : f.total < 2 ^ 63) :
    ((∃ e, f.LimitExceeded = some e ∧ e.ErrorType = LimitExceeded) →
      ∃ e, g.SumLimitExceeded = some e ∧ e.ErrorType = SumLimitExceeded) ∧
    ((∀ e, g.SumLimitExceeded = some e → e.ErrorType ≠ SumLimitExceeded) →
      ∀ e, f.LimitExceeded = some e → e.ErrorType ≠ LimitExceeded) := by
  have hsizes : ∀ x ∈ f.entries.map (fun e => e.2.Size), (0 : Int) ≤ x := by
    intro x hx
    obtain ⟨p, hp, rfl⟩ := List.mem_map.1 hx
    exact hnn p hp
  have htotal : 0 ≤ f.total := List.sum_nonneg hsizes
  have main : (∃ e, f.LimitExceeded = some e ∧ e.ErrorType = LimitExceeded) →
      ∃ e, g.SumLimitExceeded = some e ∧ e.ErrorType = SumLimitExceeded := by
    rintro ⟨e, he, hk⟩
    obtain ⟨p, hp, hlt⟩ := LimitExceeded_violation_of_kind f hmax e he hk
    have hle : p.2.Size ≤ f.total :=
      List.single_le_sum hsizes _ (List.mem_map.2 ⟨p, hp, rfl⟩)
    have hsize : g.Size > g.maxsize := by
      rw [SameSet_Size hg, hg.2.2.2.2.2.1, Size_eq_wrap_total,
        wrap64_of_fits _ (by omega) hfit]
      omega
    exact ⟨{ Maxsize := g.maxsize, Filesize := g.Size, ErrorType := SumLimitExceeded },
      by simp [File.SumLimitExceeded, hsize], rfl⟩
  refine ⟨main, ?_⟩
  intro hno e he hk
  obtain ⟨e2, he2, hk2⟩ := main ⟨e, he, hk⟩
  exact hno e2 he2 hk2

/-- Witness of C20: sizes 5, 10, 15 with limit 10; the 15-byte file is over the limit
and so is the total 30. -/
theorem SumLimitExceeded_of_LimitExceeded_witness :
    ∃ e, (New threeFiles (mkConfig 10 3 true)).SumLimitExceeded = some e ∧
      e.ErrorType = SumLimitExceeded :=
  (SumLimitExceeded_of_LimitExceeded (New threeFiles (mkConfig 10 3 true))
    (New threeFiles (mkConfig 10 3 true)) (SameSet_refl _) (by decide) (by decide)
    (by decide)).1
    ⟨{ Maxsize := 10, Filename := "data3.txt", Filesize := 15, Attrname := "file3",
       ErrorType := LimitExceeded }, by decide, by decide⟩

/-! ## Decimal digits of the clock reading -/

theorem toDigitsCore_four (n k : Nat) (h1 : 1000 ≤ n) (h2 : n ≤ 9999) :
    Nat.toDigitsCore 10 (k + 4) n [] = digits4 n := by
  have e1 : n / 10 ≠ 0 := by omega
  have e2 : n / 10 / 10 ≠ 0 := by omega
  have e3 : n / 10 / 10 / 10 ≠ 0 := by omega
  have e4 : n / 10 / 10 / 10 / 10 = 0 := by omega
  have d3 : n / 10 / 10 / 10 % 10 = n / 1000 % 10 := by omega
  have d2 : n / 10 / 10 % 10 = n / 100 % 10 := by omega
  simp only [Nat.toDigitsCore, e1, e2, e3, e4, if_false, if_true, d3, d2, digits4]

/-- The decimal form of a year from 1000 to 9999 is its four digits. -/
theorem year_digits (y : Int) (h1 : 1000 ≤ y) (h2 : y ≤ 9999) :
    (toString y).data = digits4 y.toNat := by
  obtain ⟨n, rfl⟩ : ∃ n : Nat, y = (n : Int) := ⟨y.toNat, by omega⟩
  have hstr : toString (n : Int) = toString n := rfl
  rw [hstr, Int.toNat_ofNat]
  obtain ⟨k, rfl⟩ : ∃ k, n = k + 3 := ⟨n - 3, by omega⟩
  show (Nat.repr (k + 3)).data = _
  unfold Nat.repr Nat.toDigits
  rw [List.asString, toDigitsCore_four (k + 3) k (by omega) (by omega)]

/-- For a year from 1000 to 9999, `year[2:]` is the two digits of the year modulo 100. -/
theorem year_slice (y : Int) (h1 : 1000 ≤ y) (h2 : y ≤ 9999) :
    sliceFrom2 (toString y).data = some (digits2 (y.toNat % 100)) := by
  rw [year_digits y h1 h2]
  have d1 : y.toNat % 100 / 10 % 10 = y.toNat / 10 % 10 := by omega
  have d0 : y.toNat % 100 % 10 = y.toNat % 10 := by omega
  simp [sliceFrom2, digits4, digits2, d1, d0]

/-- The verb `%02d` gives the two zero-padded digits of a number below 100. -/
theorem pad2_digits : ∀ n < 100, pad2 n = digits2 n := by
  decide

/-! ## The replacer of `FileHeader.Write` is one pass over the template -/

theorem lookup_other (now : Time) (header : FileHeader) (year year2 : List Char) (a : Char)
    (rest : List Char) (ha : a ≠ '%') :
    Replacer.lookup (FileHeader.Write.pairs now header year year2) (a :: rest) = none := by
  have h : ('%' == a) = false := by
    simp only [beq_eq_false_iff_ne, ne_eq]
    exact fun h => ha h.symm
  simp [Replacer.lookup, FileHeader.Write.pairs, List.find?, List.isPrefixOf, h]

theorem lookup_last (now : Time) (header : FileHeader) (year year2 : List Char) (a : Char) :
    Replacer.lookup (FileHeader.Write.pairs now header year year2) [a] = none := by
  simp [Replacer.lookup, FileHeader.Write.pairs, List.find?, List.isPrefixOf]

theorem lookup_placeholder (now : Time) (header : FileHeader) (year year2 : List Char)
    (c : Char) (rest : List Char) :
    Replacer.lookup (FileHeader.Write.pairs now header year year2) ('%' :: c :: rest)
      = (placeholderTable year year2 (pad2 now.Month) (pad2 now.Day) (pad2 now.Hour)
          (pad2 now.Minute) (pad2 now.Second) header.Filename.data
          (hexOf (md5 (bytesOf (header.Filename ++ toString header.Size)))) c).map
          (fun e => (['%', c], e)) := by
  simp only [Replacer.lookup, FileHeader.Write.pairs, placeholderTable]
  by_cases hY : c = 'Y'
  · subst hY; simp [List.find?, List.isPrefixOf]
  by_cases hy : c = 'y'
  · subst hy; simp [List.find?, List.isPrefixOf]
  by_cases hm : c = 'm'
  · subst hm; simp [List.find?, List.isPrefixOf]
  by_cases hd : c = 'd'
  · subst hd; simp [List.find?, List.isPrefixOf]
  by_cases hH : c = 'H'
  · subst hH; simp [List.find?, List.isPrefixOf]
  by_cases hM : c = 'M'
  · subst hM; simp [List.find?, List.isPrefixOf]
  by_cases hS : c = 'S'
  · subst hS; simp [List.find?, List.isPrefixOf]
  by_cases hf : c = 'f'
  · subst hf; simp [List.find?, List.isPrefixOf]
  by_cases hg : c = 'g'
  · subst hg; simp [List.find?, List.isPrefixOf]
  have e : ∀ x : Char, c ≠ x → (x == c) = false := by
    intro x hx
    simp only [beq_eq_false_iff_ne, ne_eq]
    exact fun h => hx h.symm
  simp [List.find?, List.isPrefixOf, hY, hy, hm, hd, hH, hM, hS, hf, hg, e]

theorem Replace_step (pairs : List (List Char × List Char)) (a : Char) (rest : List Char) :
    Replacer.Replace pairs 0 (a :: rest)
      = (match Replacer.lookup pairs (a :: rest) with
        | some p => p.2 ++ Replacer.Replace pairs (p.1.length - 1) rest
        | none => a :: Replacer.Replace pairs 0 rest) := rfl

theorem Replace_skip (pairs : List (List Char × List Char)) (n : Nat) (a : Char)
    (rest : List Char) :
    Replacer.Replace pairs (n + 1) (a :: rest) = Replacer.Replace pairs n rest := rfl

/-- A replacer whose old strings are `%` and one letter of a table runs as one pass. -/
theorem Replace_eq_onePass (pairs : List (List Char × List Char))
    (table : Char → Option (List Char))
    (h1 : ∀ a rest, a ≠ '%' → Replacer.lookup pairs (a :: rest) = none)
    (h2 : ∀ a, Replacer.lookup pairs [a] = none)
    (h3 : ∀ c rest, Replacer.lookup pairs ('%' :: c :: rest)
      = (table c).map (fun e => (['%', c], e))) :
    ∀ l, Replacer.Replace pairs 0 l = onePass table l := by
  have both : ∀ l, Replacer.Replace pairs 0 l = onePass table l ∧
      ∀ a, Replacer.Replace pairs 0 (a :: l) = onePass table (a :: l) := by
    intro l
    induction l with
    | nil =>
      refine ⟨rfl, fun a => ?_⟩
      rw [Replace_step, h2]
      rfl
    | cons c rest ih =>
      refine ⟨ih.2 c, fun a => ?_⟩
      rw [Replace_step]
      by_cases ha : a = '%'
      · subst ha
        rw [h3]
        cases ht : table c with
        | none =>
          simp only [Option.map_none', onePass, ht, if_true]
          rw [ih.2 c]
        | some e =>
          simp only [Option.map_some', onePass, ht, if_true, List.length_cons,
            List.length_nil]
          rw [Replace_skip, ih.1]
      · rw [h1 a (c :: rest) ha]
        simp only [onePass, ha, if_false]
        rw [ih.2 c]
  exact fun l => (both l).1

/-- The template after `rep.Replace` is one pass with the strings of the replacer. -/
theorem Write_Replace_eq (now : Time) (header : FileHeader) (year year2 : List Char)
    (l : List Char) :
    Replacer.Replace (FileHeader.Write.pairs now header year year2) 0 l
      = onePass (placeholderTable year year2 (pad2 now.Month) (pad2 now.Day)
          (pad2 now.Hour) (pad2 now.Minute) (pad2 now.Second) header.Filename.data
          (hexOf (md5 (bytesOf (header.Filename ++ toString header.Size))))) l :=
  Replace_eq_onePass _ _ (fun a rest ha => lookup_other now header year year2 a rest ha)
    (lookup_last now header year year2) (lookup_placeholder now header year year2) l

/-- The destination path of a template that is not empty, when `year[2:]` is defined. -/
theorem Write_filename_eq (now : Time) (header : FileHeader) (format : String)
    (hf : format ≠ "") (year2 : List Char)
    (hy : sliceFrom2 (toString now.Year).data = some year2) :
    FileHeader.Write.filename now header format
      = some (String.mk (onePass (placeholderTable (toString now.Year).data year2
          (pad2 now.Month) (pad2 now.Day) (pad2 now.Hour) (pad2 now.Minute)
          (pad2 now.Second) header.Filename.data
          (hexOf (md5 (bytesOf (header.Filename ++ toString header.Size))))) format.data)) := by
  simp only [FileHeader.Write.filename, hf, ne_eq, not_false_eq_true, if_true, hy,
    Write_Replace_eq]

/-- C14: for every template that is not empty, every clock reading with a year from
1000 to 9999 (its other fields in their ranges) and every entry, the destination path
that `FileHeader.Write` computes is the result of one pass from left to right over the
template in which `%Y`, `%y`, `%m`, `%d`, `%H`, `%M`, `%S`, `%f`, `%g` are replaced by
the 4-digit year, the last 2 digits of the year, the zero-padded 2-digit month, day,
hour, minute and second, the filename unmodified and the lowercase hex digest, and all
other text is copied; replaced text is not read again, so the template `%f` gives the
filename as it is, also when the filename holds a placeholder. -/
theorem Write_filename_is_one_pass (now : Time) (header : FileHeader) (format : String)
    (hf : format ≠ "") (hy1 : 1000 ≤ now.Year) (hy2 : now.Year ≤ 9999) (hv : now.valid) :
    FileHeader.Write.filename now header format
      = some (String.mk (onePass (expansionOf now header) format.data)) ∧
    FileHeader.Write.filename now header "%f" = some header.Filename := by
  obtain ⟨_, hm, _, hd, hH, hM, hS⟩ := hv
  have hyear := year_digits now.Year hy1 hy2
  have hslice := year_slice now.Year hy1 hy2
  have main : ∀ fmt : String, fmt ≠ "" → FileHeader.Write.filename now header fmt
      = some (String.mk (onePass (expansionOf now header) fmt.data)) := by
    intro fmt hfmt
    rw [Write_filename_eq now header fmt hfmt _ hslice, hyear,
      pad2_digits now.Month (by omega), pad2_digits now.Day (by omega),
      pad2_digits now.Hour (by omega), pad2_digits now.Minute (by omega),
      pad2_digits now.Second (by omega)]
    rfl
  refine ⟨main format hf, ?_⟩
  rw [main "%f" (by decide)]
  have : onePass (expansionOf now header) "%f".data = header.Filename.data := by
    show onePass (expansionOf now header) ['%', 'f'] = _
    simp [onePass, expansionOf, placeholderTable]
  rw [this]

/-- Witness of C14: the template of the tests at a clock reading of 2026, and the
filename `%Y.txt` under the template `%f`. -/
theorem Write_filename_is_one_pass_witness :
    FileHeader.Write.filename noon (upload "data1.txt") "test/dst/%Y%m%d_%H%M%S_%f"
      = some "test/dst/20261104_130509_data1.txt" ∧
    FileHeader.Write.filename noon (upload "%Y.txt") "%f" = some "%Y.txt" :=
  ⟨(Write_filename_is_one_pass noon (upload "data1.txt") "test/dst/%Y%m%d_%H%M%S_%f"
      (by decide) (by decide) (by decide) (by unfold Time.valid; decide)).1.trans (by decide),
    (Write_filename_is_one_pass noon (upload "%Y.txt") "%f"
      (by decide) (by decide) (by decide) (by unfold Time.valid; decide)).2⟩

/-! ## The expansion of `%g` -/

theorem hexDigit_injective : ∀ a < 16, ∀ b < 16, hexDigit a = hexDigit b → a = b := by
  decide

theorem hexOf_cons (b : Nat) (l : List Nat) :
    hexOf (b :: l) = hexDigit (b / 16 % 16) :: hexDigit (b % 16) :: hexOf l := rfl

theorem hexOf_injective (l1 : List Nat) :
    ∀ l2 : List Nat, (∀ b ∈ l1, b < 256) → (∀ b ∈ l2, b < 256) → hexOf l1 = hexOf l2 →
      l1 = l2 := by
  induction l1 with
  | nil =>
    intro l2 _ _ h
    cases l2 with
    | nil => rfl
    | cons b l => rw [hexOf_cons] at h; cases h
  | cons a l1 ih =>
    intro l2 h1 h2 h
    cases l2 with
    | nil => rw [hexOf_cons] at h; cases h
    | cons b l2 =>
      rw [hexOf_cons, hexOf_cons] at h
      injection h with hd1 h
      injection h with hd2 h
      have ha : a < 256 := h1 a (by simp)
      have hb : b < 256 := h2 b (by simp)
      have e1 := hexDigit_injective _ (Nat.mod_lt _ (by decide)) _ (Nat.mod_lt _ (by decide)) hd1
      have e2 := hexDigit_injective _ (Nat.mod_lt _ (by decide)) _ (Nat.mod_lt _ (by decide)) hd2
      have hab : a = b := by omega
      rw [hab, ih l2 (fun x hx => h1 x (List.mem_cons_of_mem _ hx))
        (fun x hx => h2 x (List.mem_cons_of_mem _ hx)) h]

theorem md5_wordBytes_lt (w b : Nat) (hb : b ∈ md5.wordBytes w) : b < 256 := by
  simp only [md5.wordBytes, List.mem_cons, List.mem_singleton, List.not_mem_nil,
    or_false] at hb
  omega

theorem md5_bytes (msg : List Nat) : ∀ b ∈ md5 msg, b < 256 := by
  intro b hb
  simp only [md5, List.mem_append] at hb
  rcases hb with ((h | h) | h) | h <;> exact md5_wordBytes_lt _ _ h

/-- The destination path of the template `%g`: the lowercase hex MD5 digest of the
filename followed by the decimal declared size. -/
theorem Write_filename_g (now : Time) (header : FileHeader)
    (hyear : 2 ≤ (toString now.Year).data.length) :
    FileHeader.Write.filename now header "%g"
      = some (String.mk (hexOf (md5 (bytesOf (header.Filename ++ toString header.Size))))) := by
  have hslice : sliceFrom2 (toString now.Year).data = some ((toString now.Year).data.drop 2) := by
    have : ¬ (toString now.Year).data.length < 2 := by omega
    simp only [sliceFrom2, this, if_false]
  rw [Write_filename_eq now header "%g" (by decide) _ hslice]
  show some (String.mk (onePass _ ['%', 'g'])) = _
  simp [onePass, placeholderTable]

/-- C13 as stated fails: the entries `("a1", 2)` and `("a", 12)` differ in filename and
in size, and the template `%g` expands to the same text for both, the digest of `a12`. -/
theorem g_same_for_different_entries :
    (mkHeader "a1" 2).Filename ≠ (mkHeader "a" 12).Filename ∧
    (mkHeader "a1" 2).Size ≠ (mkHeader "a" 12).Size ∧
    FileHeader.Write.filename noon (mkHeader "a1" 2) "%g"
      = FileHeader.Write.filename noon (mkHeader "a" 12) "%g" := by
  refine ⟨by decide, by decide, ?_⟩
  rw [Write_filename_g noon _ (by decide), Write_filename_g noon _ (by decide)]
  have : (mkHeader "a1" 2).Filename ++ toString (mkHeader "a1" 2).Size
      = (mkHeader "a" 12).Filename ++ toString (mkHeader "a" 12).Size := by decide
  rw [this]

/-- C13 (amended): for every clock reading at which the expansion is defined (the year
prints with at least two characters) and every two entries, the expansions of the
template `%g` differ exactly when the MD5 digests of the two strings `filename` followed
by the decimal `size` differ; entries whose strings are equal have the same expansion,
whatever their filenames and sizes are. -/
theorem g_differs_iff_digest_differs (now : Time) (h1 h2 : FileHeader)
    (hyear : 2 ≤ (toString now.Year).data.length) :
    (FileHeader.Write.filename now h1 "%g" ≠ FileHeader.Write.filename now h2 "%g" ↔
      md5 (bytesOf (h1.Filename ++ toString h1.Size))
        ≠ md5 (bytesOf (h2.Filename ++ toString h2.Size))) ∧
    (h1.Filename ++ toString h1.Size = h2.Filename ++ toString h2.Size →
      FileHeader.Write.filename now h1 "%g" = FileHeader.Write.filename now h2 "%g") := by
  rw [Write_filename_g now h1 hyear, Write_filename_g now h2 hyear]
  constructor
  · constructor
    · intro h hd
      exact h (by rw [hd])
    · intro h he
      apply h
      have hdata := congrArg String.data (Option.some.inj he)
      exact hexOf_injective _ _ (md5_bytes _) (md5_bytes _) hdata
  · intro h
    rw [h]

/-- Witness of C13: `("a", 1)` and `("b", 1)` have different digests and different
expansions of `%g`. -/
theorem g_differs_iff_digest_differs_witness :
    FileHeader.Write.filename noon (mkHeader "a" 1) "%g"
      ≠ FileHeader.Write.filename noon (mkHeader "b" 1) "%g" :=
  (g_differs_iff_digest_differs noon (mkHeader "a" 1) (mkHeader "b" 1) (by decide)).1.2
    (by decide)

/-! ## The filesystem operations -/

theorem mkdirStep_files (state : FS × Bool) (dir : String) :
    (FS.mkdirStep state dir).1.files = state.1.files := by
  unfold FS.mkdirStep
  split
  · rfl
  · split
    · rfl
    · split <;> rfl

theorem mkdirFold_files (dirs : List String) :
    ∀ state : FS × Bool, (dirs.foldl FS.mkdirStep state).1.files = state.1.files := by
  induction dirs with
  | nil => intro state; rfl
  | cons d rest ih =>
    intro state
    rw [List.foldl_cons, ih, mkdirStep_files]

/-- The call `os.MkdirAll` changes no regular file. -/
theorem MkdirAll_files (fs : FS) (dir : String) : (fs.MkdirAll dir).files = fs.files := by
  unfold FS.MkdirAll
  split
  · rfl
  · exact mkdirFold_files _ _

theorem mkdirFor_files (fs : FS) (filename : String) :
    (fs.mkdirFor filename).files = fs.files := by
  unfold FS.mkdirFor
  split
  · exact MkdirAll_files _ _
  · rfl

/-- Nothing is created for a path that `os.Stat` finds: its directory is there. -/
theorem mkdirFor_of_Stat (fs : FS) (path : String) (h : fs.Stat path = true) :
    fs.mkdirFor path = fs := by
  unfold FS.Stat at h
  simp only [Bool.and_eq_true, Bool.or_eq_true, decide_eq_true_eq] at h
  unfold FS.mkdirFor FS.MkdirAll
  rcases h.1.2 with hd | hd
  · simp [hd]
  · simp [hd]

theorem mkdirFor_of_no_dir (fs : FS) (path : String) (h : dirOf path = "") :
    fs.mkdirFor path = fs := by
  simp [FS.mkdirFor, h]

theorem WriteFile_dirs (fs : FS) (path : String) (data : List Nat) (perm : Nat) :
    (fs.WriteFile path data perm).2.dirs = fs.dirs := by
  unfold FS.WriteFile
  split
  · rfl
  · split
    · rfl
    · split <;> rfl

/-- A call of `ioutil.WriteFile` that fails changes nothing. -/
theorem WriteFile_error (fs : FS) (path : String) (data : List Nat) (perm : Nat)
    (err : String) (fs2 : FS) (h : fs.WriteFile path data perm = (some err, fs2)) :
    fs2 = fs := by
  unfold FS.WriteFile at h
  split at h
  · exact (congrArg Prod.snd h).symm
  · split at h
    · exact (congrArg Prod.snd h).symm
    · split at h
      · exact (congrArg Prod.snd h).symm
      · cases h

theorem lookup_replace (path : String) (data : List Nat) (files : List (String × List Nat × Nat)) :
    (files.lookup path).isSome = true →
      ((files.map (fun p => if p.1 = path then (path, data, p.2.2) else p)).lookup path).isSome
        = true := by
  induction files with
  | nil => intro h; simp [List.lookup] at h
  | cons p rest ih =>
    obtain ⟨k, v⟩ := p
    intro h
    by_cases hk : k = path
    · subst hk
      rw [List.map_cons, if_pos (show (k, v).1 = k from rfl)]
      simp [List.lookup]
    · have hb : (path == k) = false := by
        simp only [beq_eq_false_iff_ne, ne_eq]
        exact fun e => hk e.symm
      simp only [List.lookup, hb] at h
      rw [List.map_cons, if_neg (show ¬ (k, v).1 = path from hk)]
      simp only [List.lookup, hb]
      exact ih h

theorem lookup_added (path : String) (v : List Nat × Nat) (files : List (String × List Nat × Nat)) :
    ((files ++ [(path, v)]).lookup path).isSome = true := by
  induction files with
  | nil => simp [List.lookup]
  | cons p rest ih =>
    obtain ⟨k, w⟩ := p
    by_cases hk : k = path
    · subst hk
      simp [List.lookup]
    · have hb : (path == k) = false := by
        simp only [beq_eq_false_iff_ne, ne_eq]
        exact fun e => hk e.symm
      simp only [List.cons_append, List.lookup, hb]
      exact ih

theorem lookup_setFile (files : List (String × List Nat × Nat)) (path : String)
    (data : List Nat) (perm : Nat) :
    ((FS.setFile files path data perm).lookup path).isSome = true := by
  unfold FS.setFile
  split
  · rename_i h
    exact lookup_replace path data files h
  · exact lookup_added path (data, perm) files

/-- A call of `ioutil.WriteFile` that succeeds stores the bytes, leaves the directories,
and makes the path one that `os.Stat` finds. -/
theorem WriteFile_ok (fs : FS) (path : String) (data : List Nat) (perm : Nat) (fs2 : FS)
    (h : fs.WriteFile path data perm = (none, fs2)) :
    fs2.files = FS.setFile fs.files path data perm ∧ fs2.dirs = fs.dirs ∧
      fs2.Stat path = true := by
  unfold FS.WriteFile at h
  split at h
  · cases h
  · rename_i hbase
    split at h
    · cases h
    · rename_i hdir
      split at h
      · cases h
      · have h2 : fs2 = { fs with files := FS.setFile fs.files path data perm } :=
          (congrArg Prod.snd h).symm
        subst h2
        refine ⟨rfl, rfl, ?_⟩
        have hne : path ≠ "" := by
          rintro rfl
          exact hbase (by decide)
        have hd : dirOf path = "" ∨ dirOf path ∈ fs.dirs := by
          by_cases e : dirOf path = ""
          · exact Or.inl e
          · right
            by_contra hno
            exact hdir ⟨e, hno⟩
        simp only [FS.Stat, FS.isFile, lookup_setFile, Bool.and_eq_true, Bool.or_eq_true,
          decide_eq_true_eq, or_true, true_or, and_true]
        exact ⟨hne, hd⟩

/-! ## One call of `FileHeader.Write` -/

theorem Write_of_failure (now : Time) (fs : FS) (header : FileHeader) (format : String)
    (perm : Nat) (overwrite : Bool) (message : String)
    (hbody : header.Body = Content.failure message) :
    header.Write now fs format perm overwrite = some (some message, fs) := by
  simp only [FileHeader.Write, hbody]

theorem Write_of_data (now : Time) (fs : FS) (header : FileHeader) (format : String)
    (perm : Nat) (overwrite : Bool) (buf : List Nat) (path : String)
    (hbody : header.Body = Content.data buf)
    (hpath : FileHeader.Write.filename now header format = some path) :
    header.Write now fs format perm overwrite
      = if overwrite = false ∧ (fs.mkdirFor path).Stat path = true then
          some (some ("'" ++ path ++ "' is already exists"), fs.mkdirFor path)
        else some ((fs.mkdirFor path).WriteFile path buf perm) := by
  simp only [FileHeader.Write, hbody, hpath]

/-- A call of `FileHeader.Write` that returns an error changes no regular file. -/
theorem Write_error_files (now : Time) (fs : FS) (header : FileHeader) (format : String)
    (perm : Nat) (overwrite : Bool) (err : String) (fs2 : FS)
    (h : header.Write now fs format perm overwrite = some (some err, fs2)) :
    fs2.files = fs.files := by
  cases hbody : header.Body with
  | failure message =>
    rw [Write_of_failure now fs header format perm overwrite message hbody] at h
    cases h
    rfl
  | data buf =>
    cases hpath : FileHeader.Write.filename now header format with
    | none => simp [FileHeader.Write, hbody, hpath] at h
    | some path =>
      rw [Write_of_data now fs header format perm overwrite buf path hbody hpath] at h
      split at h
      · cases h
        exact mkdirFor_files fs path
      · have hw : (fs.mkdirFor path).WriteFile path buf perm = (some err, fs2) :=
          Option.some.inj h
        rw [WriteFile_error _ _ _ _ _ _ hw]
        exact mkdirFor_files fs path

/-! ## The overwrite policy -/

/-- C15 as stated fails: overwrite is disabled and `test/dst/duplicate.txt` exists, but
the content of the entry cannot be opened, and `Write` returns the error of `Open`, not
the already-exists error. -/
theorem Write_returns_open_error_first :
    FileHeader.Write.filename noon (unreadable "data1.txt") "test/dst/duplicate.txt"
      = some "test/dst/duplicate.txt" ∧
    usedFS.Stat "test/dst/duplicate.txt" = true ∧
    (unreadable "data1.txt").Write noon usedFS "test/dst/duplicate.txt" 420 false
      = some (some "open : no such file or directory", usedFS) ∧
    (unreadable "data1.txt").Write noon usedFS "test/dst/duplicate.txt" 420 false
      ≠ some (some "'test/dst/duplicate.txt' is already exists", usedFS) := by
  decide

/-- C15 (amended): for every filesystem state, entry and template: if overwrite is
disabled and a filesystem entry exists at the expanded destination path of the entry,
`FileHeader.Write` returns an error and the filesystem after the call is the filesystem
before it, so nothing is written; the error is the already-exists error when the content
of the entry was opened and read, and the error of `Open` or `ReadAll` otherwise. -/
theorem Write_keeps_existing_file (now : Time) (fs : FS) (header : FileHeader)
    (format : String) (perm : Nat) (path : String)
    (hpath : FileHeader.Write.filename now header format = some path)
    (hexists : fs.Stat path = true) :
    ∃ err, header.Write now fs format perm false = some (some err, fs) ∧
      (∀ buf, header.Body = Content.data buf → err = "'" ++ path ++ "' is already exists") ∧
      (∀ message, header.Body = Content.failure message → err = message) := by
  cases hbody : header.Body with
  | failure message =>
    refine ⟨message, Write_of_failure now fs header format perm false message hbody, ?_, ?_⟩
    · intro buf h; cases h
    · intro m h; cases h; rfl
  | data buf =>
    refine ⟨"'" ++ path ++ "' is already exists", ?_, fun _ _ => rfl, ?_⟩
    · rw [Write_of_data now fs header format perm false buf path hbody hpath,
        mkdirFor_of_Stat fs path hexists]
      simp [hexists]
    · intro m h; cases h

/-- Witness of C15: the file `test/dst/duplicate.txt` exists; the upload is refused
and the filesystem, the bytes of that file included, is as before. -/
theorem Write_keeps_existing_file_witness :
    ∃ err, (upload "data1.txt").Write noon usedFS "test/dst/duplicate.txt" 420 false
        = some (some err, usedFS) ∧
      (∀ buf, (upload "data1.txt").Body = Content.data buf →
        err = "'" ++ "test/dst/duplicate.txt" ++ "' is already exists") ∧
      (∀ message, (upload "data1.txt").Body = Content.failure message → err = message) :=
  Write_keeps_existing_file noon usedFS (upload "data1.txt") "test/dst/duplicate.txt" 420
    "test/dst/duplicate.txt" (by decide) (by decide)

/-! ## The empty template -/

/-- C17 as stated fails: with the empty template and the filename `sub/x.txt`, on a
filesystem without directories, `Write` creates the directory `sub/`. -/
theorem Write_empty_template_creates_directory :
    emptyFS.dirs = [] ∧
    (upload "sub/x.txt").Write noon emptyFS "" 420 false
      = some (none, { dirs := ["sub/"], files := [("sub/x.txt", [97, 98, 99, 100, 101], 420)] }) := by
  decide

/-- C17 (amended): for every entry, with the empty template `FileHeader.Write` returns
and uses the original filename as it is as the destination path (a success stores the
content there); it creates no directory when the filename has no directory part, and
when it has one, once the content is read, the directories are those after
`os.MkdirAll` of that part. -/
theorem Write_empty_template (now : Time) (fs : FS) (header : FileHeader) (perm : Nat)
    (overwrite : Bool) :
    FileHeader.Write.filename now header "" = some header.Filename ∧
    ∃ res, header.Write now fs "" perm overwrite = some res ∧
      (dirOf header.Filename = "" → res.2.dirs = fs.dirs) ∧
      (∀ buf, header.Body = Content.data buf →
        res.2.dirs = (fs.mkdirFor header.Filename).dirs ∧
        (res.1 = none → res.2.files = FS.setFile fs.files header.Filename buf perm)) := by
  have hpath : FileHeader.Write.filename now header "" = some header.Filename := by
    simp [FileHeader.Write.filename]
  refine ⟨hpath, ?_⟩
  cases hbody : header.Body with
  | failure message =>
    refine ⟨_, Write_of_failure now fs header "" perm overwrite message hbody, fun _ => rfl, ?_⟩
    intro buf h; cases h
  | data buf =>
    have hw := Write_of_data now fs header "" perm overwrite buf header.Filename hbody hpath
    by_cases hc : overwrite = false ∧ (fs.mkdirFor header.Filename).Stat header.Filename = true
    · rw [if_pos hc] at hw
      refine ⟨_, hw, ?_, ?_⟩
      · intro hd
        rw [mkdirFor_of_no_dir fs _ hd]
      · intro b hb
        exact ⟨rfl, fun h => by cases h⟩
    · rw [if_neg hc] at hw
      refine ⟨_, hw, ?_, ?_⟩
      · intro hd
        rw [WriteFile_dirs, mkdirFor_of_no_dir fs _ hd]
      · intro b hb
        cases hb
        refine ⟨WriteFile_dirs _ _ _ _, ?_⟩
        intro hnone
        have hres : (fs.mkdirFor header.Filename).WriteFile header.Filename buf perm
            = (none, ((fs.mkdirFor header.Filename).WriteFile header.Filename buf perm).2) := by
          rw [← hnone]
        rw [(WriteFile_ok _ _ _ _ _ hres).1, mkdirFor_files]

/-- Witness of C17: the filename `data1.txt` has no directory part; `Write` with the
empty template stores the content at `data1.txt` and creates no directory. -/
theorem Write_empty_template_witness :
    (upload "data1.txt").Write noon emptyFS "" 420 false
      = some (none, { dirs := [], files := [("data1.txt", [97, 98, 99, 100, 101], 420)] }) ∧
    FileHeader.Write.filename noon (upload "data1.txt") "" = some "data1.txt" :=
  ⟨by decide, (Write_empty_template noon emptyFS (upload "data1.txt") 420 false).1⟩

/-! ## The iteration of `File.Write` -/

theorem scanField_eq_writeFlat (clock : Nat → Time) (savefile : String) (perm : Nat)
    (overwrite : Bool) (name : String) (headers : List FileHeader) :
    ∀ (n : Nat) (fs : FS),
      File.Write.scanField clock savefile perm overwrite name n fs headers
        = writeFlat clock savefile perm overwrite n fs (headers.map (fun h => (name, h))) := by
  induction headers with
  | nil => intro n fs; rfl
  | cons header rest ih =>
    intro n fs
    simp only [File.Write.scanField, List.map_cons, writeFlat]
    cases header.Write (clock n) fs savefile perm overwrite with
    | none => rfl
    | some res =>
      obtain ⟨err, fs1⟩ := res
      cases err with
      | some e => rfl
      | none => exact ih (n + 1) fs1

theorem writeFlat_append (clock : Nat → Time) (savefile : String) (perm : Nat)
    (overwrite : Bool) (l1 l2 : List (String × FileHeader)) :
    ∀ (n : Nat) (fs : FS),
      writeFlat clock savefile perm overwrite n fs (l1 ++ l2)
        = (match writeFlat clock savefile perm overwrite n fs l1 with
          | none => none
          | some (some err, fs1) => some (some err, fs1)
          | some (none, fs1) =>
            writeFlat clock savefile perm overwrite (n + l1.length) fs1 l2) := by
  induction l1 with
  | nil => intro n fs; rfl
  | cons e rest ih =>
    intro n fs
    simp only [List.cons_append, writeFlat, List.length_cons]
    cases e.2.Write (clock n) fs savefile perm overwrite with
    | none => rfl
    | some res =>
      obtain ⟨err, fs1⟩ := res
      cases err with
      | some e => rfl
      | none =>
        have hlen : n + 1 + rest.length = n + (rest.length + 1) := by omega
        rw [← hlen]
        exact ih (n + 1) fs1

/-- The nested loops of `File.Write` run as one loop over the entries in iteration
order. -/
theorem scan_eq_writeFlat (clock : Nat → Time) (savefile : String) (perm : Nat)
    (overwrite : Bool) (headers : List (String × List FileHeader)) :
    ∀ (n : Nat) (fs : FS),
      File.Write.scan clock savefile perm overwrite n fs headers
        = writeFlat clock savefile perm overwrite n fs
            (headers.flatMap (fun p => p.2.map (fun h => (p.1, h)))) := by
  induction headers with
  | nil => intro n fs; rfl
  | cons p rest ih =>
    intro n fs
    obtain ⟨name, hs⟩ := p
    simp only [File.Write.scan, List.flatMap_cons, writeFlat_append, scanField_eq_writeFlat,
      List.length_map]
    cases writeFlat clock savefile perm overwrite n fs (hs.map (fun h => (name, h))) with
    | none => rfl
    | some res =>
      obtain ⟨err, fs1⟩ := res
      cases err with
      | some e => rfl
      | none => exact ih (n + hs.length) fs1

theorem File_Write_eq_writeFlat (clock : Nat → Time) (fs : FS) (f : File) :
    f.Write clock fs = writeFlat clock f.savefile f.perm f.overwrite 0 fs f.entries :=
  scan_eq_writeFlat clock f.savefile f.perm f.overwrite f.headers 0 fs

/-- After entries that were all written without error, the run goes on with the rest. -/
theorem writeFlat_after_written (clock : Nat → Time) (savefile : String) (perm : Nat)
    (overwrite : Bool) (pre rest : List (String × FileHeader)) :
    ∀ (n : Nat) (fs fs1 : FS),
      writeEach clock savefile perm overwrite n fs pre = some fs1 →
      writeFlat clock savefile perm overwrite n fs (pre ++ rest)
        = writeFlat clock savefile perm overwrite (n + pre.length) fs1 rest := by
  induction pre with
  | nil =>
    intro n fs fs1 h
    simp only [writeEach, Option.some.injEq] at h
    subst h
    rfl
  | cons e pre ih =>
    intro n fs fs1 h
    simp only [writeEach] at h
    simp only [List.cons_append, writeFlat, List.length_cons]
    cases hw : e.2.Write (clock n) fs savefile perm overwrite with
    | none => rw [hw] at h; cases h
    | some res =>
      obtain ⟨err, fs2⟩ := res
      cases err with
      | some e2 => rw [hw] at h; cases h
      | none =>
        rw [hw] at h
        have h2 : writeEach clock savefile perm overwrite (n + 1) fs2 pre = some fs1 := h
        have hlen : n + 1 + pre.length = n + (pre.length + 1) := by omega
        rw [← hlen]
        exact ih (n + 1) fs2 fs1 h2

/-- C16: for every upload set, `File.Write` handles the entries in iteration order
(fields, then entries within a field) and stops at the first entry whose write fails:
when the entries before an entry were all written without error and the write of that
entry returns an error, `File.Write` returns the error whose message is the field name
of that entry, `": "` and the message of the cause; the filesystem it leaves is the one
that the failed write left, whatever entries come after, and its files are the files
after the writes before; when every entry is written without error it returns nil and
leaves the filesystem after all the writes. -/
theorem File_Write_stops_at_first_failure (clock : Nat → Time) (fs : FS) (f : File) :
    (∀ pre e post fs1 msg fs2, f.entries = pre ++ e :: post →
      writeEach clock f.savefile f.perm f.overwrite 0 fs pre = some fs1 →
      e.2.Write (clock pre.length) fs1 f.savefile f.perm f.overwrite = some (some msg, fs2) →
      f.Write clock fs = some (some (e.1 ++ ": " ++ msg), fs2) ∧ fs2.files = fs1.files) ∧
    (∀ fs1, writeEach clock f.savefile f.perm f.overwrite 0 fs f.entries = some fs1 →
      f.Write clock fs = some (none, fs1)) := by
  constructor
  · intro pre e post fs1 msg fs2 hsplit hpre hfail
    refine ⟨?_, Write_error_files _ _ _ _ _ _ _ _ hfail⟩
    rw [File_Write_eq_writeFlat, hsplit,
      writeFlat_after_written clock _ _ _ pre (e :: post) 0 fs fs1 hpre]
    simp only [writeFlat, Nat.zero_add, hfail]
  · intro fs1 hall
    have := writeFlat_after_written clock f.savefile f.perm f.overwrite f.entries [] 0 fs fs1 hall
    rw [List.append_nil] at this
    rw [File_Write_eq_writeFlat, this]
    rfl

/-- Witness of C16: in the set of the overwrite test on an empty filesystem the entry
of `file1` is written and the entry of `file3` fails; the error names `file3`. -/
theorem File_Write_stops_at_first_failure_witness :
    overwriteSet.Write (fun _ => noon) emptyFS
      = some (some ("file3" ++ ": " ++ "'test/dst/duplicate.txt' is already exists"),
          { dirs := ["test/", "test/dst/"],
            files := [("test/dst/duplicate.txt", [97, 98, 99, 100, 101], 420)] }) :=
  ((File_Write_stops_at_first_failure (fun _ => noon) emptyFS overwriteSet).1
    [("file1", upload "data1.txt")] ("file3", upload "data3.txt") []
    { dirs := ["test/", "test/dst/"],
      files := [("test/dst/duplicate.txt", [97, 98, 99, 100, 101], 420)] }
    "'test/dst/duplicate.txt' is already exists"
    { dirs := ["test/", "test/dst/"],
      files := [("test/dst/duplicate.txt", [97, 98, 99, 100, 101], 420)] }
    (by decide) (by decide) (by decide)).1

/-! ## A template without placeholder -/

theorem placeholderTable_none (year year2 month day hour minute second filename digest : List Char)
    (c : Char) (h : "YymdHMSfg".data.contains c = false) :
    placeholderTable year year2 month day hour minute second filename digest c = none := by
  have hc : c ∉ "YymdHMSfg".data := by
    intro hm
    have ht : "YymdHMSfg".data.contains c = true := by simpa using hm
    rw [ht] at h
    cases h
  have hx : ∀ x ∈ "YymdHMSfg".data, c ≠ x := fun x hx e => hc (e ▸ hx)
  simp only [placeholderTable, hx 'Y' (by decide), hx 'y' (by decide), hx 'm' (by decide),
    hx 'd' (by decide), hx 'H' (by decide), hx 'M' (by decide), hx 'S' (by decide),
    hx 'f' (by decide), hx 'g' (by decide), if_false]

/-- One pass copies a template that holds no placeholder. -/
theorem onePass_of_no_placeholder
    (year year2 month day hour minute second filename digest : List Char) :
    ∀ l, hasPlaceholder l = false →
      onePass (placeholderTable year year2 month day hour minute second filename digest) l
        = l := by
  have both : ∀ l, (hasPlaceholder l = false →
        onePass (placeholderTable year year2 month day hour minute second filename digest) l
          = l) ∧
      ∀ a, hasPlaceholder (a :: l) = false →
        onePass (placeholderTable year year2 month day hour minute second filename digest)
          (a :: l) = a :: l := by
    intro l
    induction l with
    | nil => exact ⟨fun _ => rfl, fun _ _ => rfl⟩
    | cons c rest ih =>
      refine ⟨ih.2 c, fun a h => ?_⟩
      simp only [hasPlaceholder, Bool.or_eq_false_iff, Bool.and_eq_false_iff] at h
      obtain ⟨h1, h2⟩ := h
      simp only [onePass]
      by_cases ha : a = '%'
      · have hcont : "YymdHMSfg".data.contains c = false := by
          rcases h1 with h1 | h1
          · subst ha
            simp at h1
          · exact h1
        simp only [ha, if_true, placeholderTable_none _ _ _ _ _ _ _ _ _ c hcont]
        rw [ih.2 c h2]
      · simp only [ha, if_false]
        rw [ih.2 c h2]
  exact fun l => (both l).1

/-- A template that is not empty and holds no placeholder is its own destination path,
when `year[2:]` is defined. -/
theorem Write_filename_of_no_placeholder (now : Time) (header : FileHeader) (format : String)
    (hf : format ≠ "") (hno : hasPlaceholder format.data = false)
    (hyear : 2 ≤ (toString now.Year).data.length) :
    FileHeader.Write.filename now header format = some format := by
  have hslice : sliceFrom2 (toString now.Year).data = some ((toString now.Year).data.drop 2) := by
    have : ¬ (toString now.Year).data.length < 2 := by omega
    simp only [sliceFrom2, this, if_false]
  rw [Write_filename_eq now header format hf _ hslice,
    onePass_of_no_placeholder _ _ _ _ _ _ _ _ _ _ hno]

/-- With overwrite disabled, `Write` to a path that `os.Stat` finds returns an error and
changes nothing. -/
theorem Write_refused (now : Time) (fs : FS) (header : FileHeader) (format : String)
    (perm : Nat) (path : String)
    (hpath : FileHeader.Write.filename now header format = some path)
    (hexists : fs.Stat path = true) :
    ∃ err, header.Write now fs format perm false = some (some err, fs) := by
  cases hbody : header.Body with
  | failure message =>
    exact ⟨message, Write_of_failure now fs header format perm false message hbody⟩
  | data buf =>
    refine ⟨"'" ++ path ++ "' is already exists", ?_⟩
    rw [Write_of_data now fs header format perm false buf path hbody hpath,
      mkdirFor_of_Stat fs path hexists]
    simp [hexists]

/-- C18: for every filesystem state and every upload set with at least two entries,
when the destination template is not empty and holds no placeholder, so that every
entry has the template itself as its path (the clock reads a year of at least two
characters), and overwrite is disabled, `File.Write` returns an error, and the files it
leaves are the files before the call or those with the content of the first entry alone
written to that path: the content of at most one entry is written. -/
theorem File_Write_same_path (clock : Nat → Time) (fs : FS) (f : File)
    (hform : f.savefile ≠ "") (hno : hasPlaceholder f.savefile.data = false)
    (hyear : ∀ n, 2 ≤ (toString (clock n).Year).data.length)
    (hov : f.overwrite = false) (hcount : 2 ≤ f.count) :
    ∃ err fs2 e rest, f.entries = e :: rest ∧ f.Write clock fs = some (some err, fs2) ∧
      (fs2.files = fs.files ∨
        ∃ buf, e.2.Body = Content.data buf ∧
          fs2.files = FS.setFile fs.files f.savefile buf f.perm) := by
  have hpath : ∀ n (h : FileHeader),
      FileHeader.Write.filename (clock n) h f.savefile = some f.savefile :=
    fun n h => Write_filename_of_no_placeholder (clock n) h f.savefile hform hno (hyear n)
  obtain ⟨e1, e2, rest, hent⟩ : ∃ e1 e2 rest, f.entries = e1 :: e2 :: rest := by
    unfold File.count at hcount
    cases h : f.entries with
    | nil => rw [h] at hcount; simp at hcount
    | cons e1 l =>
      cases l with
      | nil => rw [h] at hcount; simp at hcount
      | cons e2 rest => exact ⟨e1, e2, rest, rfl⟩
  rw [File_Write_eq_writeFlat, hent, hov]
  cases hbody : e1.2.Body with
  | failure message =>
    refine ⟨e1.1 ++ ": " ++ message, fs, e1, e2 :: rest, rfl, ?_, Or.inl rfl⟩
    simp only [writeFlat, Write_of_failure _ fs e1.2 _ _ _ message hbody]
  | data buf =>
    have hw := Write_of_data (clock 0) fs e1.2 f.savefile f.perm false buf f.savefile hbody
      (hpath 0 e1.2)
    by_cases hstat : (fs.mkdirFor f.savefile).Stat f.savefile = true
    · rw [if_pos ⟨rfl, hstat⟩] at hw
      refine ⟨e1.1 ++ ": " ++ ("'" ++ f.savefile ++ "' is already exists"),
        fs.mkdirFor f.savefile, e1, e2 :: rest, rfl, ?_, Or.inl (mkdirFor_files _ _)⟩
      simp only [writeFlat, hw]
    · rw [if_neg (fun h => hstat h.2)] at hw
      cases hres : (fs.mkdirFor f.savefile).WriteFile f.savefile buf f.perm with
      | mk r fs2 =>
        rw [hres] at hw
        cases r with
        | some err =>
          refine ⟨e1.1 ++ ": " ++ err, fs2, e1, e2 :: rest, rfl, ?_, Or.inl ?_⟩
          · simp only [writeFlat, hw]
          · rw [WriteFile_error _ _ _ _ _ _ hres]
            exact mkdirFor_files _ _
        | none =>
          obtain ⟨hfiles, _, hstat2⟩ := WriteFile_ok _ _ _ _ _ hres
          obtain ⟨err2, herr2⟩ := Write_refused (clock 1) fs2 e2.2 f.savefile f.perm f.savefile
            (hpath 1 e2.2) hstat2
          refine ⟨e2.1 ++ ": " ++ err2, fs2, e1, e2 :: rest, rfl, ?_, Or.inr ⟨buf, hbody, ?_⟩⟩
          · simp only [writeFlat, hw, Nat.zero_add, herr2]
          · rw [hfiles, mkdirFor_files]

/-- Witness of C18: the template `test/dst/duplicate.txt` with the two surviving
entries of the overwrite test, on an empty filesystem. -/
theorem File_Write_same_path_witness :
    ∃ err fs2 e rest, overwriteSet.entries = e :: rest ∧
      overwriteSet.Write (fun _ => noon) emptyFS = some (some err, fs2) ∧
      (fs2.files = emptyFS.files ∨
        ∃ buf, e.2.Body = Content.data buf ∧
          fs2.files = FS.setFile emptyFS.files overwriteSet.savefile buf overwriteSet.perm) :=
  File_Write_same_path (fun _ => noon) emptyFS overwriteSet (by decide) (by decide)
    (fun _ => (by decide : 2 ≤ (toString noon.Year).data.length)) rfl (by decide)

/-! ## The example pattern of the `SaveFile` comment -/

/-- The pattern in the comment of `SaveFile` writes `%D` where the seconds belong; the
replacer has no pair for `%D`, and the two characters are copied as they are. -/
theorem Write_filename_copies_percent_D :
    FileHeader.Write.filename noon (upload "data1.txt") "files/%Y/%m/%y%m%d%H%M%D_%f"
      = some "files/2026/11/2611041305%D_data1.txt" := by
  decide

end Uploadfile
